import Mathlib

/-!
Verification of the FIX-Engine codec core (FIXValidator_Testing.py and
checkMsgType.py / DelimiterHandlingTest.py) against its specification.

Python strings are modelled as lists of characters (`Str`); Python dicts
mapping int tags to string values are modelled as insertion-ordered
association lists with distinct keys (`Dict`).  Every operation below is a
direct transcription of the corresponding Python code.
-/

/-- Python strings are modelled as lists of characters. -/
abbrev Str := List Char

/-- Python dicts from int tags to string values: insertion-ordered
association lists (keys are kept distinct by the insert operation). -/
abbrev Dict := List (Int × Str)

/-- The canonical FIX field separator, the control character of value 1
(`SOH = '\u0001'` in the source). -/
def SOH : Char := Char.ofNat 1

/-- The printable substitute separator (`SOH_PRINTABLE = '|'`). -/
def PIPE : Char := '|'

/-- Python `s.replace(a, b)` for single characters. -/
def replaceChar (s : Str) (a b : Char) : Str :=
  s.map (fun c => if c = a then b else c)

/-- Python `s.split(d)` for a single-character separator `d`. -/
def splitOnChar (d : Char) : Str → List Str
  | [] => [[]]
  | c :: rest =>
    if c = d then [] :: splitOnChar d rest
    else
      match splitOnChar d rest with
      | [] => [[c]]
      | s :: ss => (c :: s) :: ss

/-- Python `d.join(parts)` for a single-character separator. -/
def joinWith (d : Char) : List Str → Str
  | [] => []
  | [p] => p
  | p :: q :: ps => p ++ d :: joinWith d (q :: ps)

/-- Position just past the first occurrence of `d` (Python
`s.find(d) + 1`; when `d` is absent Python yields `-1 + 1 = 0`). -/
def findChar (d : Char) : Str → Option Nat
  | [] => none
  | c :: rest => if c = d then some 0 else (findChar d rest).map (· + 1)

/-- Python `s.find(d) + 1` as used by `create_message`. -/
def pyFindPlus1 (d : Char) (s : Str) : Nat :=
  match findChar d s with
  | some i => i + 1
  | none => 0

/-- ASCII whitespace characters recognised by Python `str.strip()`. -/
def isPySpace (c : Char) : Bool :=
  c = ' ' || c = '\t' || c = '\n' || c = '\r' || c = Char.ofNat 11 || c = Char.ofNat 12

/-- Python `s.strip()`. -/
def pyStrip (s : Str) : Str :=
  ((s.dropWhile isPySpace).reverse.dropWhile isPySpace).reverse

/-- Python `s.split('=', 1)`: `none` when `s` has no `'='` (length-1 result
in Python, which the parser skips), otherwise the parts before and after
the first `'='`. -/
def splitFirstEq : Str → Option (Str × Str)
  | [] => none
  | c :: rest =>
    if c = '=' then some ([], rest)
    else (splitFirstEq rest).map (fun p => (c :: p.1, p.2))

/-- ASCII decimal digit test (the digits relevant to `int()` and to the
regular expression class `\d` in the delimiter probe). -/
def isDig (c : Char) : Bool := 48 ≤ c.toNat && c.toNat ≤ 57

/-- Decimal digit character for a value below ten. -/
def digitChar : Nat → Char
  | 0 => '0' | 1 => '1' | 2 => '2' | 3 => '3' | 4 => '4'
  | 5 => '5' | 6 => '6' | 7 => '7' | 8 => '8' | 9 => '9'
  | _ => '0'

/-- Fuel-driven decimal renderer; the fuel only bounds the recursion
depth and `natToChars` always supplies enough of it. -/
def natToCharsAux : Nat → Nat → Str
  | 0, _ => []
  | fuel + 1, n =>
    if n < 10 then [digitChar n]
    else natToCharsAux fuel (n / 10) ++ [digitChar (n % 10)]

/-- Decimal rendering of a natural number (Python `str` on a
non-negative int). -/
def natToChars (n : Nat) : Str := natToCharsAux (n + 1) n

/-- Python `str` on an int (`f-string` formatting of a tag). -/
def intToChars (i : Int) : Str :=
  if i < 0 then '-' :: natToChars (-i).toNat else natToChars i.toNat

/-- Numeric value of a big-endian ASCII digit string. -/
def digitsVal (s : Str) : Nat :=
  s.foldl (fun a c => 10 * a + (c.toNat - 48)) 0

/-- Checker for the tail of a Python integer literal: digits with single
underscores strictly between digits. -/
def pyDigitsRest : Str → Bool
  | [] => true
  | c :: rest =>
    if c = '_' then
      match rest with
      | [] => false
      | d :: rest2 => isDig d && pyDigitsRest rest2
    else isDig c && pyDigitsRest rest

/-- Checker for the digit part of a Python integer literal: non-empty,
starts with a digit, underscores only between digits. -/
def pyDigitsOk : Str → Bool
  | [] => false
  | c :: rest => isDig c && pyDigitsRest rest

/-- Python `int(s)`: strips whitespace, accepts an optional sign and a
digit string with single underscores between digits; `none` models the
`ValueError` that the parser catches and turns into a skip. -/
def pyInt (s : Str) : Option Int :=
  match pyStrip s with
  | [] => none
  | c :: rest =>
    if c = '+' then
      if pyDigitsOk rest then some ((digitsVal (rest.filter (fun x => x ≠ '_'))) : Int) else none
    else if c = '-' then
      if pyDigitsOk rest then some (-((digitsVal (rest.filter (fun x => x ≠ '_'))) : Int)) else none
    else
      if pyDigitsOk (c :: rest) then
        some ((digitsVal ((c :: rest).filter (fun x => x ≠ '_'))) : Int)
      else none

/-- Lookup in a Python dict (`d[k]` / `k in d`). -/
def dlookup (k : Int) : Dict → Option Str
  | [] => none
  | p :: ps => if p.1 = k then some p.2 else dlookup k ps

/-- Python `k in d`. -/
def dcontains (k : Int) (d : Dict) : Bool := (dlookup k d).isSome

/-- Python dict assignment `d[k] = v`: overwrite in place when the key is
present, append otherwise. -/
def dinsert (d : Dict) (k : Int) (v : Str) : Dict :=
  if dcontains k d then d.map (fun p => if p.1 = k then (k, v) else p)
  else d ++ [(k, v)]

/-- Python `if k not in d: d[k] = v`. -/
def putIfAbsent (d : Dict) (k : Int) (v : Str) : Dict :=
  if dcontains k d then d else d ++ [(k, v)]

/-- Key list of a dict (`d.keys()`). -/
def dkeys (d : Dict) : List Int := d.map (·.1)

/-- Ordering of dict items by tag, used to model Python
`sorted(d.items())` (keys of a dict are distinct, so comparison of the
values never arises). -/
def keyLe (p q : Int × Str) : Prop := p.1 ≤ q.1

instance : DecidableRel keyLe := fun p q => inferInstanceAs (Decidable (p.1 ≤ q.1))

instance : IsTotal (Int × Str) keyLe := ⟨fun p q => Int.le_total p.1 q.1⟩

instance : IsTrans (Int × Str) keyLe := ⟨fun _ _ _ h1 h2 => le_trans h1 h2⟩

/-- Python `sorted(d.items())` on a dict with distinct keys. -/
def sortPairs (d : Dict) : Dict := List.insertionSort keyLe d

/-- Sum of the code points of a string (`sum(ord(c) for c in s)`). -/
def sumCodes (s : Str) : Nat := s.foldl (fun a c => a + c.toNat) 0

/-- Python formatting `n:03d` for a non-negative value: pad with zeros on
the left to width three. -/
def pyFormat3 (n : Nat) : Str :=
  List.replicate (3 - (natToChars n).length) '0' ++ natToChars n

/-! ## The parser (`FIXValidator.parse_message`) -/

/-- Processing of one `tag=value` fragment in the parser loop: skip
fragments that strip to nothing, fragments without `'='`, and fragments
whose tag part is not an integer; otherwise store the pair. -/
def parseStep (d : Dict) (pair : Str) : Dict :=
  if pyStrip pair = [] then d
  else
    match splitFirstEq pair with
    | none => d
    | some (ts, v) =>
      match pyInt ts with
      | some tag => dinsert d tag v
      | none => d

/-- Delimiter normalisation at the top of `parse_message`: with the
printable configuration, occurrences of the canonical separator are
rewritten to the printable one, and with the standard configuration,
occurrences of the printable separator are rewritten to the canonical
one. -/
def normalizePM (delim : Char) (message : Str) : Str :=
  if delim = PIPE ∧ SOH ∈ message then replaceChar message SOH PIPE
  else if delim = SOH ∧ PIPE ∈ message then replaceChar message PIPE SOH
  else message

/-- Transcription of `FIXValidator.parse_message`: normalise the
separator, split, and fold the fragments into a dict. -/
def parse_message (delim : Char) (message : Str) : Dict :=
  (splitOnChar delim (normalizePM delim message)).foldl parseStep []

/-! ## The builder (`FIXValidator.create_message`)

The local values of `create_message` are transcribed as functions of the
combined field dict so that the same computations can be re-applied to a
parsed mapping (the round-trip recomputation of the spec).  The sending
time is the one external input of the builder (`datetime.utcnow()` in the
source; the spec requires the time source to be injectable), so it is
passed as the argument `now`. -/

/-- Value of `FIX_VERSIONS[default_version]` for the default
configuration `FIX.4.4`. -/
def FIX_VERSION_STR : Str := ['F', 'I', 'X', '.', '4', '.', '4']

/-- Combined field dict of `create_message`: the caller's fields with
message type (35), begin string (8) and sending time (52) added when
absent. -/
def combined_fields (now msg_type : Str) (fields : Dict) : Dict :=
  putIfAbsent (putIfAbsent (putIfAbsent fields 35 msg_type) 8 FIX_VERSION_STR) 52 now

/-- Rendering of one dict item as `tag=value`. -/
def partStr (p : Int × Str) : Str := intToChars p.1 ++ '=' :: p.2

/-- The `msg_parts` list of `create_message`: items sorted by tag, tags 9
and 10 always excluded, rendered as `tag=value`. -/
def dictParts (d : Dict) : List Str :=
  ((sortPairs d).filter (fun p => !(p.1 == 9) && !(p.1 == 10))).map partStr

/-- The builder's `msg_without_length`: parts joined by the separator
(with no trailing separator — `join` adds none). -/
def build_without_length (delim : Char) (d : Dict) : Str :=
  joinWith delim (dictParts d)

/-- The builder's `body_start_pos`: one past the first separator. -/
def build_body_start (delim : Char) (d : Dict) : Nat :=
  pyFindPlus1 delim (build_without_length delim d)

/-- The builder's `body_length`: count of the characters after the first
separator to the end of the joined parts. -/
def build_body_length (delim : Char) (d : Dict) : Nat :=
  (build_without_length delim d).length - build_body_start delim d

/-- The builder's `msg_with_length`: the body-length field
`9=<length><delim>` spliced in just after the first separator. -/
def build_with_length (delim : Char) (d : Dict) : Str :=
  (build_without_length delim d).take (build_body_start delim d)
    ++ (intToChars 9 ++ '=' :: natToChars (build_body_length delim d) ++ [delim])
    ++ (build_without_length delim d).drop (build_body_start delim d)

/-- The builder's `checksum`: code-point sum of `msg_with_length`, taken
over the canonical-separator form when the printable separator is
configured, reduced mod 256. -/
def build_checksum (delim : Char) (d : Dict) : Nat :=
  (sumCodes (if delim = PIPE then replaceChar (build_with_length delim d) PIPE SOH
             else build_with_length delim d)) % 256

/-- Transcription of `FIXValidator.create_message`. -/
def create_message (delim : Char) (now msg_type : Str) (fields : Dict) : Str :=
  build_with_length delim (combined_fields now msg_type fields)
    ++ delim :: intToChars 10
    ++ '=' :: pyFormat3 (build_checksum delim (combined_fields now msg_type fields))

/-! ## The validator (`FIXValidator.validate_message`) -/

/-- Message-type codes of the `MSG_TYPES` catalog. -/
def MSG_TYPE_CODES : List Str :=
  [['A'], ['0'], ['1'], ['2'], ['3'], ['4'], ['5'],
   ['D'], ['G'], ['F'], ['8'], ['9'], ['A', 'E'], ['j']]

/-- Required-tag sets of the `REQUIRED_TAGS` table (types D, 8 and A). -/
def REQUIRED_TAGS (t : Str) : Option (List Int) :=
  if t = ['D'] then some [35, 49, 56, 34, 52, 11, 21, 55, 54, 60, 40]
  else if t = ['8'] then some [35, 49, 56, 34, 52, 37, 17, 39, 150, 40]
  else if t = ['A'] then some [35, 49, 56, 34, 52, 98, 108]
  else none

/-- Outcome of `validate_message`, transcribing its returned triple
`(is_valid, error_message, tag_value_dict)`: each constructor records one
of the return statements of the source, and the dict argument is present
exactly when the source returns the parsed dict as the third component. -/
inductive VResult where
  | invalidEmpty : VResult
  | invalidMissingMsgType : VResult
  | invalidUnknownType (code : Str) (d : Dict) : VResult
  | invalidMissingRequired (code : Str) (missing : Finset Int) (d : Dict) : VResult
  | valid (d : Dict) : VResult
deriving DecidableEq

/-- Third component of the returned triple: the dict handed back to the
caller, when there is one. -/
def VResult.dict? : VResult → Option Dict
  | .invalidEmpty => none
  | .invalidMissingMsgType => none
  | .invalidUnknownType _ d => some d
  | .invalidMissingRequired _ _ d => some d
  | .valid d => some d

/-- Validation steps of `validate_message` after parsing: empty check,
message-type presence, catalog membership, required tags. -/
def validateParsed (d : Dict) : VResult :=
  if d = [] then .invalidEmpty
  else
    match dlookup 35 d with
    | none => .invalidMissingMsgType
    | some mt =>
      if mt ∈ MSG_TYPE_CODES then
        match REQUIRED_TAGS mt with
        | some req =>
          if req.toFinset \ (dkeys d).toFinset = ∅ then .valid d
          else .invalidMissingRequired mt (req.toFinset \ (dkeys d).toFinset) d
        | none => .valid d
      else .invalidUnknownType mt d

/-- Transcription of `FIXValidator.validate_message`. -/
def validate_message (delim : Char) (message : Str) : VResult :=
  validateParsed (parse_message delim message)

/-! ## The delimiter normalizer (`convert_fix_delimiter`) -/

/-- Candidate separators probed by `convert_fix_delimiter`, in source
order. -/
def SUB_DELIMS : List Char := ['|', '^', '~', ',', ';', '\t']

/-- Match of the regular expression `8=FIX\.\d\.\d<delim>9=\d+` at the
start of the string (existence of a match only needs one digit after
`9=`). -/
def sigAt (delim : Char) (s : Str) : Bool :=
  match s with
  | '8' :: '=' :: 'F' :: 'I' :: 'X' :: '.' :: d1 :: '.' :: d2 :: c :: '9' :: '=' :: d3 :: _ =>
    isDig d1 && isDig d2 && c == delim && isDig d3
  | _ => false

/-- Python `re.search` of the delimiter signature: a match at some
position of the string. -/
def hasSig (delim : Char) : Str → Bool
  | [] => false
  | c :: rest => sigAt delim (c :: rest) || hasSig delim rest

/-- Transcription of `convert_fix_delimiter`; `none` models the raised
`ValueError` (the `DelimiterUnknown` failure of the spec). -/
def convert_fix_delimiter (fix_message : Str) (current_delimiter : Option Char) : Option Str :=
  match current_delimiter with
  | some c => if c = SOH then some fix_message else some (replaceChar fix_message c SOH)
  | none =>
    match SUB_DELIMS.find? (fun d => hasSig d fix_message) with
    | some c => if c = SOH then some fix_message else some (replaceChar fix_message c SOH)
    | none => if SOH ∈ fix_message then some fix_message else none

/-- Outcome of the parser loop for a single fragment: the tag-value pair
it stores, if any (helper for stating parser lemmas). -/
def fragPair (f : Str) : Option (Int × Str) :=
  match splitFirstEq f with
  | none => none
  | some (ts, v) =>
    match pyInt ts with
    | some tag => some (tag, v)
    | none => none

/-- Strict tag ordering on dict items. -/
def keyLt (p q : Int × Str) : Prop := p.1 < q.1

instance : IsAntisymm (Int × Str) keyLt :=
  ⟨fun _ _ h1 h2 => absurd (lt_trans h1 h2) (lt_irrefl _)⟩

/-- Written from the claim C3 wording, for comparison with the code: the
fields joined with the delimiter, with a trailing delimiter included
after the last field. -/
def claimJoinedTrailing (delim : Char) (d : Dict) : Str :=
  joinWith delim (dictParts d) ++ [delim]

/-- Written from the claim C3 wording, for comparison with the code: the
character count of everything after the first delimiter occurrence up to
the end of the joined-with-trailing-delimiter string. -/
def claimBodyLength (delim : Char) (d : Dict) : Nat :=
  (claimJoinedTrailing delim d).length - pyFindPlus1 delim (claimJoinedTrailing delim d)

/-! ## Lemmas about the string model -/

theorem replaceChar_not_mem {s : Str} {a b : Char} (h : a ∉ s) : replaceChar s a b = s := by
  unfold replaceChar
  induction s with
  | nil => rfl
  | cons c cs ih =>
    have hc : c ≠ a := fun e => h (e ▸ List.mem_cons_self c cs)
    simp only [List.map_cons, if_neg hc, ih (fun hm => h (List.mem_cons_of_mem _ hm))]

theorem not_mem_replaceChar {s : Str} {a b : Char} (h : a ≠ b) : a ∉ replaceChar s a b := by
  unfold replaceChar
  intro hm
  rcases List.mem_map.mp hm with ⟨c, _, hc⟩
  by_cases hca : c = a
  · rw [if_pos hca] at hc; exact h hc.symm
  · rw [if_neg hca] at hc; exact hca hc

theorem splitOnChar_ne_nil (d : Char) (s : Str) : splitOnChar d s ≠ [] := by
  induction s with
  | nil => simp [splitOnChar]
  | cons c cs ih =>
    rw [splitOnChar]
    by_cases hc : c = d
    · simp [hc]
    · rw [if_neg hc]
      cases hs : splitOnChar d cs with
      | nil => simp
      | cons a as => simp

theorem splitOnChar_not_mem {d : Char} {s : Str} (h : d ∉ s) : splitOnChar d s = [s] := by
  induction s with
  | nil => rfl
  | cons c cs ih =>
    have hc : c ≠ d := fun e => h (e ▸ List.mem_cons_self c cs)
    rw [splitOnChar, if_neg hc, ih (fun hm => h (List.mem_cons_of_mem _ hm))]

theorem splitOnChar_append_cons {d : Char} {p rest : Str} (h : d ∉ p) :
    splitOnChar d (p ++ d :: rest) = p :: splitOnChar d rest := by
  induction p with
  | nil => simp [splitOnChar]
  | cons c cs ih =>
    have hc : c ≠ d := fun e => h (e ▸ List.mem_cons_self c cs)
    rw [List.cons_append, splitOnChar, if_neg hc,
      ih (fun hm => h (List.mem_cons_of_mem _ hm))]

theorem joinWith_cons_cons (d : Char) (p q : Str) (ps : List Str) :
    joinWith d (p :: q :: ps) = p ++ d :: joinWith d (q :: ps) := rfl

theorem splitOnChar_joinWith {d : Char} {parts : List Str} (hne : parts ≠ [])
    (hfree : ∀ p ∈ parts, d ∉ p) : splitOnChar d (joinWith d parts) = parts := by
  induction parts with
  | nil => cases hne rfl
  | cons p ps ih =>
    cases ps with
    | nil => exact splitOnChar_not_mem (hfree p (List.mem_cons_self _ _))
    | cons q qs =>
      rw [joinWith_cons_cons, splitOnChar_append_cons (hfree p (List.mem_cons_self _ _)),
        ih (by simp) (fun r hr => hfree r (List.mem_cons_of_mem _ hr))]

theorem not_mem_joinWith {d c : Char} {parts : List Str} (hc : c ≠ d)
    (h : ∀ p ∈ parts, c ∉ p) : c ∉ joinWith d parts := by
  induction parts with
  | nil => simp [joinWith]
  | cons p ps ih =>
    cases ps with
    | nil => exact h p (List.mem_cons_self _ _)
    | cons q qs =>
      rw [joinWith_cons_cons]
      intro hm
      rcases List.mem_append.mp hm with h1 | h2
      · exact h p (List.mem_cons_self _ _) h1
      · rcases List.mem_cons.mp h2 with rfl | h3
        · exact hc rfl
        · exact ih (fun r hr => h r (List.mem_cons_of_mem _ hr)) h3

theorem joinWith_append_singleton {d : Char} {parts : List Str} (h : parts ≠ []) (q : Str) :
    joinWith d (parts ++ [q]) = joinWith d parts ++ d :: q := by
  induction parts with
  | nil => cases h rfl
  | cons p ps ih =>
    cases ps with
    | nil => rfl
    | cons r rs =>
      have ih' := ih (by simp)
      calc joinWith d ((p :: r :: rs) ++ [q])
          = p ++ d :: joinWith d ((r :: rs) ++ [q]) := rfl
        _ = p ++ d :: (joinWith d (r :: rs) ++ d :: q) := by rw [ih']
        _ = (p ++ d :: joinWith d (r :: rs)) ++ d :: q := by simp

theorem findChar_append_cons {d : Char} {p rest : Str} (h : d ∉ p) :
    findChar d (p ++ d :: rest) = some p.length := by
  induction p with
  | nil => simp [findChar]
  | cons c cs ih =>
    have hc : c ≠ d := fun e => h (e ▸ List.mem_cons_self c cs)
    simp [findChar, if_neg hc, ih (fun hm => h (List.mem_cons_of_mem _ hm))]

theorem joinWith_ne_nil {d : Char} {parts : List Str} (hne : parts ≠ [])
    (hnil : ∀ p ∈ parts, p ≠ []) : joinWith d parts ≠ [] := by
  cases parts with
  | nil => cases hne rfl
  | cons p ps =>
    cases ps with
    | nil => exact hnil p (List.mem_cons_self _ _)
    | cons q qs =>
      rw [joinWith_cons_cons]
      intro h
      exact absurd (List.append_eq_nil.mp h).2 (by simp)

theorem joinWith_getLast_ne {d : Char} {parts : List Str} (hne : parts ≠ [])
    (hnil : ∀ p ∈ parts, p ≠ []) (hfree : ∀ p ∈ parts, d ∉ p) :
    (joinWith d parts).getLast? ≠ some d := by
  induction parts with
  | nil => cases hne rfl
  | cons p ps ih =>
    cases ps with
    | nil =>
      intro hl
      have hd : d ∈ (joinWith d [p]).getLast? := Option.mem_def.mpr hl
      exact hfree p (List.mem_cons_self _ _) (List.mem_of_mem_getLast? hd)
    | cons q qs =>
      have hrest : joinWith d (q :: qs) ≠ [] :=
        joinWith_ne_nil (by simp) (fun r hr => hnil r (List.mem_cons_of_mem _ hr))
      rw [joinWith_cons_cons, List.getLast?_append]
      have h1 : (d :: joinWith d (q :: qs)).getLast? = (joinWith d (q :: qs)).getLast? := by
        cases hj : joinWith d (q :: qs) with
        | nil => cases hrest hj
        | cons x xs => rw [List.getLast?_cons_cons]
      rw [h1]
      have h2 := ih (by simp) (fun r hr => hnil r (List.mem_cons_of_mem _ hr))
        (fun r hr => hfree r (List.mem_cons_of_mem _ hr))
      cases hg : (joinWith d (q :: qs)).getLast? with
      | none => exact absurd (List.getLast?_eq_none_iff.mp hg) hrest
      | some x =>
        show (Option.some x).or p.getLast? ≠ some d
        intro he
        exact h2 (by rw [hg]; exact he)

/-! ## Lemmas about digits and numbers -/

theorem digitChar_spec {d : Nat} (h : d < 10) :
    (digitChar d).toNat = 48 + d ∧ isDig (digitChar d) = true := by
  interval_cases d <;> exact ⟨by decide, by decide⟩

theorem isDig_toNat {c : Char} (h : isDig c = true) : 48 ≤ c.toNat ∧ c.toNat ≤ 57 := by
  unfold isDig at h
  simp only [Bool.and_eq_true, decide_eq_true_eq] at h
  exact h

theorem isDig_ne {c : Char} (h : isDig c = true) :
    c ≠ SOH ∧ c ≠ PIPE ∧ c ≠ '=' ∧ c ≠ '_' ∧ c ≠ '+' ∧ c ≠ '-' := by
  have hb := isDig_toNat h
  refine ⟨?_, ?_, ?_, ?_, ?_, ?_⟩ <;> (intro he; subst he; revert hb; decide)

theorem isDig_not_space {c : Char} (h : isDig c = true) : isPySpace c = false := by
  have hb := isDig_toNat h
  cases hsp : isPySpace c with
  | false => rfl
  | true =>
    exfalso
    unfold isPySpace at hsp
    simp only [Bool.or_eq_true, decide_eq_true_eq] at hsp
    rcases hsp with ((((h1 | h2) | h3) | h4) | h5) | h6 <;> (subst_vars; revert hb; decide)

theorem natToCharsAux_congr (n : Nat) :
    ∀ f1 f2, n < f1 → n < f2 → natToCharsAux f1 n = natToCharsAux f2 n := by
  induction n using Nat.strong_induction_on with
  | _ n ih =>
    intro f1 f2 h1 h2
    cases f1 with
    | zero => omega
    | succ g1 =>
      cases f2 with
      | zero => omega
      | succ g2 =>
        show (if n < 10 then [digitChar n]
              else natToCharsAux g1 (n / 10) ++ [digitChar (n % 10)]) =
            (if n < 10 then [digitChar n]
              else natToCharsAux g2 (n / 10) ++ [digitChar (n % 10)])
        by_cases hn : n < 10
        · rw [if_pos hn, if_pos hn]
        · rw [if_neg hn, if_neg hn,
            ih (n / 10) (Nat.div_lt_self (by omega) (by omega)) g1 g2 (by omega) (by omega)]

theorem natToChars_lt {n : Nat} (h : n < 10) : natToChars n = [digitChar n] := by
  unfold natToChars
  show (if n < 10 then [digitChar n]
        else natToCharsAux n (n / 10) ++ [digitChar (n % 10)]) = [digitChar n]
  rw [if_pos h]

theorem natToChars_ge {n : Nat} (h : ¬ n < 10) :
    natToChars n = natToChars (n / 10) ++ [digitChar (n % 10)] := by
  unfold natToChars
  show (if n < 10 then [digitChar n]
        else natToCharsAux n (n / 10) ++ [digitChar (n % 10)]) =
      natToCharsAux (n / 10 + 1) (n / 10) ++ [digitChar (n % 10)]
  rw [if_neg h, natToCharsAux_congr (n / 10) n (n / 10 + 1) (by omega) (by omega)]

theorem natToChars_ne_nil (n : Nat) : natToChars n ≠ [] := by
  by_cases h : n < 10
  · rw [natToChars_lt h]; simp
  · rw [natToChars_ge h]; simp

theorem natToChars_all_dig (n : Nat) : ∀ c ∈ natToChars n, isDig c = true := by
  induction n using Nat.strong_induction_on with
  | _ n ih =>
    by_cases h : n < 10
    · rw [natToChars_lt h]
      intro c hc
      rcases List.mem_singleton.mp hc with rfl
      exact (digitChar_spec h).2
    · rw [natToChars_ge h]
      intro c hc
      rcases List.mem_append.mp hc with h1 | h2
      · exact ih (n / 10) (Nat.div_lt_self (by omega) (by omega)) c h1
      · rcases List.mem_singleton.mp h2 with rfl
        exact (digitChar_spec (Nat.mod_lt _ (by omega))).2

theorem digitsVal_natToChars (n : Nat) : digitsVal (natToChars n) = n := by
  induction n using Nat.strong_induction_on with
  | _ n ih =>
    by_cases h : n < 10
    · rw [natToChars_lt h]
      show 10 * 0 + ((digitChar n).toNat - 48) = n
      rw [(digitChar_spec h).1]
      omega
    · rw [natToChars_ge h]
      have hsplit : digitsVal (natToChars (n / 10) ++ [digitChar (n % 10)]) =
          10 * digitsVal (natToChars (n / 10)) + ((digitChar (n % 10)).toNat - 48) := by
        unfold digitsVal
        rw [List.foldl_append]
        rfl
      rw [hsplit, ih (n / 10) (Nat.div_lt_self (by omega) (by omega)),
        (digitChar_spec (Nat.mod_lt _ (by omega))).1]
      omega

theorem natToChars_length_le {n : Nat} (h : n < 1000) : (natToChars n).length ≤ 3 := by
  by_cases h1 : n < 10
  · rw [natToChars_lt h1]; simp
  · rw [natToChars_ge h1]
    by_cases h2 : n / 10 < 10
    · rw [natToChars_lt h2]; simp
    · rw [natToChars_ge h2]
      have h3 : n / 10 / 10 < 10 := by omega
      rw [natToChars_lt h3]
      simp

theorem pyFormat3_length {n : Nat} (h : n < 1000) : (pyFormat3 n).length = 3 := by
  have hl := natToChars_length_le h
  have hn := natToChars_ne_nil n
  have hp : 1 ≤ (natToChars n).length := by
    cases hc : natToChars n with
    | nil => cases hn hc
    | cons a as => simp
  unfold pyFormat3
  rw [List.length_append, List.length_replicate]
  omega

theorem digitsVal_replicate_zero (k : Nat) (s : Str) :
    digitsVal (List.replicate k '0' ++ s) = digitsVal s := by
  induction k with
  | zero => rfl
  | succ k ih =>
    have hstep : digitsVal (List.replicate (k + 1) '0' ++ s) =
        digitsVal (List.replicate k '0' ++ s) := rfl
    rw [hstep, ih]

theorem digitsVal_pyFormat3 (n : Nat) : digitsVal (pyFormat3 n) = n := by
  unfold pyFormat3
  rw [digitsVal_replicate_zero, digitsVal_natToChars]

/-! ## Lemmas about stripping and integer parsing -/

theorem mem_dropWhile_of_mem {p : Char → Bool} {l : Str} {c : Char} (hm : c ∈ l)
    (hc : p c = false) : c ∈ l.dropWhile p := by
  induction l with
  | nil => cases hm
  | cons a as ih =>
    rw [List.dropWhile_cons]
    by_cases ha : p a = true
    · rw [if_pos ha]
      rcases List.mem_cons.mp hm with rfl | h2
      · rw [ha] at hc; cases hc
      · exact ih h2
    · rw [if_neg ha]; exact hm

theorem pyStrip_ne_nil {l : Str} {c : Char} (hm : c ∈ l) (hc : isPySpace c = false) :
    pyStrip l ≠ [] := by
  unfold pyStrip
  intro h
  have h1 : c ∈ l.dropWhile isPySpace := mem_dropWhile_of_mem hm hc
  have h2 : c ∈ (l.dropWhile isPySpace).reverse := List.mem_reverse.mpr h1
  have h3 : c ∈ (l.dropWhile isPySpace).reverse.dropWhile isPySpace :=
    mem_dropWhile_of_mem h2 hc
  rw [List.reverse_eq_nil_iff] at h
  rw [h] at h3
  cases h3

theorem dropWhile_eq_self_of_head {p : Char → Bool} {l : Str}
    (h : ∀ c ∈ l, p c = false) : l.dropWhile p = l := by
  cases l with
  | nil => rfl
  | cons a as => rw [List.dropWhile_cons, if_neg (by rw [h a (List.mem_cons_self _ _)]; simp)]

theorem pyStrip_eq_self {l : Str} (h : ∀ c ∈ l, isPySpace c = false) : pyStrip l = l := by
  unfold pyStrip
  rw [dropWhile_eq_self_of_head h,
    dropWhile_eq_self_of_head (fun c hc => h c (List.mem_reverse.mp hc)),
    List.reverse_reverse]

theorem splitFirstEq_append {a b : Str} (h : '=' ∉ a) :
    splitFirstEq (a ++ '=' :: b) = some (a, b) := by
  induction a with
  | nil => simp [splitFirstEq]
  | cons c cs ih =>
    have hc : c ≠ '=' := fun e => h (e ▸ List.mem_cons_self c cs)
    rw [List.cons_append, splitFirstEq, if_neg hc,
      ih (fun hm => h (List.mem_cons_of_mem _ hm))]
    rfl

theorem pyDigitsRest_all {l : Str} (h : ∀ c ∈ l, isDig c = true) : pyDigitsRest l = true := by
  induction l with
  | nil => rfl
  | cons c cs ih =>
    have hc := h c (List.mem_cons_self _ _)
    have hne : c ≠ '_' := (isDig_ne hc).2.2.2.1
    rw [pyDigitsRest.eq_def]
    simp only [if_neg hne, hc, ih (fun x hx => h x (List.mem_cons_of_mem _ hx)),
      Bool.and_self]

theorem pyDigitsOk_all {l : Str} (hne : l ≠ []) (h : ∀ c ∈ l, isDig c = true) :
    pyDigitsOk l = true := by
  cases l with
  | nil => cases hne rfl
  | cons c cs =>
    rw [pyDigitsOk, h c (List.mem_cons_self _ _),
      pyDigitsRest_all (fun x hx => h x (List.mem_cons_of_mem _ hx))]
    rfl

theorem pyInt_digits {l : Str} (hne : l ≠ []) (h : ∀ c ∈ l, isDig c = true) :
    pyInt l = some ((digitsVal l : Nat) : Int) := by
  cases l with
  | nil => cases hne rfl
  | cons c cs =>
    have hstrip : pyStrip (c :: cs) = c :: cs :=
      pyStrip_eq_self (fun x hx => isDig_not_space (h x hx))
    have hc := h c (List.mem_cons_self _ _)
    have hfil : (c :: cs).filter (fun x => x ≠ '_') = c :: cs :=
      List.filter_eq_self.mpr (fun a ha => decide_eq_true_eq.mpr ((isDig_ne (h a ha)).2.2.2.1))
    unfold pyInt
    rw [hstrip]
    simp only [if_neg (isDig_ne hc).2.2.2.2.1, if_neg (isDig_ne hc).2.2.2.2.2,
      if_pos (pyDigitsOk_all (by simp) h), hfil]

theorem pyInt_natToChars (n : Nat) : pyInt (natToChars n) = some (n : Int) := by
  rw [pyInt_digits (natToChars_ne_nil n) (natToChars_all_dig n), digitsVal_natToChars]

/-! ## Lemmas about the dict model -/

theorem dlookup_nil (k : Int) : dlookup k [] = none := rfl

theorem dlookup_cons (k : Int) (p : Int × Str) (ps : Dict) :
    dlookup k (p :: ps) = if p.1 = k then some p.2 else dlookup k ps := rfl

theorem dkeys_nil : dkeys [] = [] := rfl

theorem dkeys_cons (p : Int × Str) (ps : Dict) : dkeys (p :: ps) = p.1 :: dkeys ps := rfl

theorem dkeys_append (d1 d2 : Dict) : dkeys (d1 ++ d2) = dkeys d1 ++ dkeys d2 :=
  List.map_append _ d1 d2

theorem dlookup_append (k : Int) (d1 d2 : Dict) :
    dlookup k (d1 ++ d2) = (dlookup k d1).or (dlookup k d2) := by
  induction d1 with
  | nil => rfl
  | cons p ps ih =>
    rw [List.cons_append, dlookup_cons, dlookup_cons]
    by_cases hp : p.1 = k
    · rw [if_pos hp, if_pos hp]; rfl
    · rw [if_neg hp, if_neg hp, ih]

theorem dlookup_eq_none_iff {k : Int} {d : Dict} : dlookup k d = none ↔ k ∉ dkeys d := by
  induction d with
  | nil => simp [dlookup_nil, dkeys_nil]
  | cons p ps ih =>
    rw [dlookup_cons, dkeys_cons]
    by_cases hp : p.1 = k
    · simp [hp]
    · simp only [if_neg hp, ih, List.mem_cons]
      constructor
      · rintro h1 (h2 | h2)
        · exact hp h2.symm
        · exact h1 h2
      · intro h1 h2
        exact h1 (Or.inr h2)

theorem dcontains_iff {k : Int} {d : Dict} : dcontains k d = true ↔ k ∈ dkeys d := by
  unfold dcontains
  rw [Option.isSome_iff_ne_none]
  constructor
  · intro h1
    by_contra h2
    exact h1 (dlookup_eq_none_iff.mpr h2)
  · intro h1 h2
    exact (dlookup_eq_none_iff.mp h2) h1

theorem dcontains_false_iff {k : Int} {d : Dict} : dcontains k d = false ↔ k ∉ dkeys d := by
  constructor
  · intro h1 h2
    rw [← dcontains_iff] at h2
    rw [h1] at h2
    cases h2
  · intro h1
    cases hc : dcontains k d with
    | false => rfl
    | true => exact absurd (dcontains_iff.mp hc) h1

theorem mem_dkeys {k : Int} {v : Str} {d : Dict} (h : (k, v) ∈ d) : k ∈ dkeys d := by
  have := List.mem_map_of_mem (·.1) h
  exact this

theorem mem_of_dlookup {k : Int} {v : Str} {d : Dict} (h : dlookup k d = some v) : (k, v) ∈ d := by
  induction d with
  | nil => cases h
  | cons p ps ih =>
    rw [dlookup_cons] at h
    by_cases hp : p.1 = k
    · rw [if_pos hp] at h
      have hv : p.2 = v := by injection h
      have hpv : p = (k, v) := Prod.ext hp hv
      rw [← hpv]
      exact List.mem_cons_self _ _
    · rw [if_neg hp] at h
      exact List.mem_cons_of_mem _ (ih h)

theorem dlookup_of_mem_nodup {k : Int} {v : Str} {d : Dict} (hn : (dkeys d).Nodup)
    (h : (k, v) ∈ d) : dlookup k d = some v := by
  induction d with
  | nil => cases h
  | cons p ps ih =>
    rw [dkeys_cons, List.nodup_cons] at hn
    rw [dlookup_cons]
    rcases List.mem_cons.mp h with rfl | h2
    · rw [if_pos rfl]
    · by_cases hp : p.1 = k
      · exact absurd (hp ▸ mem_dkeys h2) hn.1
      · rw [if_neg hp]
        exact ih hn.2 h2

theorem dlookup_perm {d1 d2 : Dict} (h : List.Perm d1 d2) (hn : (dkeys d1).Nodup) (k : Int) :
    dlookup k d1 = dlookup k d2 := by
  have hp : List.Perm (dkeys d1) (dkeys d2) := by
    unfold dkeys
    exact h.map _
  have hn2 : (dkeys d2).Nodup := hp.nodup_iff.mp hn
  cases h1 : dlookup k d1 with
  | none =>
    have hk : k ∉ dkeys d2 := by
      intro hm
      rcases List.mem_map.mp hm with ⟨p, hp, hpk⟩
      have : p ∈ d1 := h.mem_iff.mpr hp
      have : p.1 ∈ dkeys d1 := List.mem_map_of_mem _ this
      rw [hpk] at this
      exact dlookup_eq_none_iff.mp h1 this
    exact (dlookup_eq_none_iff.mpr hk).symm
  | some v =>
    exact (dlookup_of_mem_nodup hn2 (h.mem_iff.mp (mem_of_dlookup h1))).symm

theorem putIfAbsent_contains {d : Dict} {k : Int} {v : Str} (h : dcontains k d = true) :
    putIfAbsent d k v = d := by
  unfold putIfAbsent
  rw [h]
  rfl

theorem putIfAbsent_absent {d : Dict} {k : Int} {v : Str} (h : dcontains k d = false) :
    putIfAbsent d k v = d ++ [(k, v)] := by
  unfold putIfAbsent
  rw [h]
  rfl

theorem dlookup_putIfAbsent_ne {d : Dict} {k j : Int} {v : Str} (h : k ≠ j) :
    dlookup j (putIfAbsent d k v) = dlookup j d := by
  unfold putIfAbsent
  cases hc : dcontains k d with
  | true => rfl
  | false =>
    show dlookup j (d ++ [(k, v)]) = dlookup j d
    rw [dlookup_append, dlookup_cons, if_neg h, dlookup_nil]
    cases dlookup j d <;> rfl

theorem dlookup_putIfAbsent_same {d : Dict} {k : Int} {v : Str} :
    dlookup k (putIfAbsent d k v) = ((dlookup k d).or (some v)) := by
  unfold putIfAbsent
  cases hc : dcontains k d with
  | true =>
    have : dlookup k d ≠ none := by
      intro hn
      unfold dcontains at hc
      rw [hn] at hc
      cases hc
    cases hd : dlookup k d with
    | none => exact absurd hd this
    | some w => rw [if_pos rfl, hd]; rfl
  | false =>
    have hd : dlookup k d = none := by
      unfold dcontains at hc
      cases hd : dlookup k d with
      | none => rfl
      | some w => rw [hd] at hc; cases hc
    show dlookup k (d ++ [(k, v)]) = (dlookup k d).or (some v)
    rw [dlookup_append, hd, dlookup_cons, if_pos rfl]

theorem dkeys_putIfAbsent (d : Dict) (k : Int) (v : Str) :
    dkeys (putIfAbsent d k v) = if dcontains k d then dkeys d else dkeys d ++ [k] := by
  unfold putIfAbsent
  cases dcontains k d with
  | true => rfl
  | false => simp [dkeys, List.map_append]

theorem mem_putIfAbsent {d : Dict} {k : Int} {v : Str} {p : Int × Str}
    (h : p ∈ putIfAbsent d k v) : p ∈ d ∨ p = (k, v) := by
  unfold putIfAbsent at h
  split at h
  · exact Or.inl h
  · rcases List.mem_append.mp h with h1 | h2
    · exact Or.inl h1
    · exact Or.inr (List.mem_singleton.mp h2)

theorem nodup_putIfAbsent {d : Dict} {k : Int} {v : Str} (hn : (dkeys d).Nodup) :
    (dkeys (putIfAbsent d k v)).Nodup := by
  rw [dkeys_putIfAbsent]
  split
  · exact hn
  · next hc =>
    have hcf : dcontains k d = false := Bool.eq_false_iff.mpr hc
    rw [List.nodup_append]
    exact ⟨hn, List.nodup_singleton _,
      fun a ha hb => (dcontains_false_iff.mp hcf) ((List.mem_singleton.mp hb) ▸ ha)⟩

/-! ## Lemmas about dinsert and the parse fold -/

theorem dinsert_fresh {d : Dict} {k : Int} {v : Str} (h : dcontains k d = false) :
    dinsert d k v = d ++ [(k, v)] := by
  unfold dinsert
  rw [h]
  rfl

theorem dinsert_ne_nil (d : Dict) (k : Int) (v : Str) : dinsert d k v ≠ [] := by
  unfold dinsert
  split
  · next hc =>
    intro hm
    rw [List.map_eq_nil_iff] at hm
    subst hm
    exact Bool.noConfusion hc
  · intro hm
    rcases List.append_eq_nil.mp hm with ⟨_, h2⟩
    cases h2

theorem dkeys_dinsert (d : Dict) (k : Int) (v : Str) :
    dkeys (dinsert d k v) = if dcontains k d then dkeys d else dkeys d ++ [k] := by
  unfold dinsert
  split
  · show List.map (·.1) (d.map (fun p => if p.1 = k then (k, v) else p)) = List.map (·.1) d
    rw [List.map_map]
    refine List.map_congr_left ?_
    intro p _
    by_cases hpk : p.1 = k
    · simp [hpk]
    · simp [hpk]
  · simp [dkeys, List.map_append]

theorem mem_dkeys_dinsert {d : Dict} {k0 : Int} {v0 : Str} {k : Int} :
    k ∈ dkeys (dinsert d k0 v0) ↔ k ∈ dkeys d ∨ k = k0 := by
  rw [dkeys_dinsert]
  split
  · next hc =>
    constructor
    · exact Or.inl
    · rintro (h | rfl)
      · exact h
      · exact dcontains_iff.mp hc
  · rw [List.mem_append, List.mem_singleton]

theorem pyStrip_all_space {l : Str} (h : pyStrip l = []) : ∀ c ∈ l, isPySpace c = true := by
  intro c hc
  by_contra hs
  exact pyStrip_ne_nil hc (Bool.eq_false_iff.mpr hs) h

theorem splitFirstEq_eq_none {f : Str} (h : '=' ∉ f) : splitFirstEq f = none := by
  induction f with
  | nil => rfl
  | cons c cs ih =>
    have hc : c ≠ '=' := fun e => h (e ▸ List.mem_cons_self c cs)
    rw [splitFirstEq, if_neg hc, ih (fun hm => h (List.mem_cons_of_mem _ hm))]
    rfl

theorem parseStep_eq (d : Dict) (f : Str) :
    parseStep d f = match fragPair f with
      | some p => dinsert d p.1 p.2
      | none => d := by
  by_cases hsp : pyStrip f = []
  · have hall := pyStrip_all_space hsp
    have heq : '=' ∉ f := by
      intro hm
      have hsp2 := hall '=' hm
      revert hsp2
      decide
    unfold parseStep fragPair
    rw [if_pos hsp, splitFirstEq_eq_none heq]
  · unfold parseStep fragPair
    rw [if_neg hsp]
    cases hse : splitFirstEq f with
    | none => rfl
    | some tv =>
      obtain ⟨ts, v⟩ := tv
      show (match pyInt ts with
            | some tag => dinsert d tag v
            | none => d) =
          (match (match pyInt ts with
                  | some tag => some (tag, v)
                  | none => none) with
            | some p => dinsert d p.1 p.2
            | none => d)
      cases pyInt ts with
      | none => rfl
      | some tag => rfl

theorem foldl_parseStep_empty (frags : List Str) (d : Dict) :
    frags.foldl parseStep d = [] ↔ d = [] ∧ ∀ f ∈ frags, fragPair f = none := by
  induction frags generalizing d with
  | nil => simp
  | cons f fs ih =>
    rw [List.foldl_cons, ih]
    constructor
    · rintro ⟨h1, h2⟩
      cases hf : fragPair f with
      | none =>
        rw [parseStep_eq, hf] at h1
        refine ⟨h1, fun g hg => ?_⟩
        rcases List.mem_cons.mp hg with rfl | hg2
        · exact hf
        · exact h2 g hg2
      | some p =>
        rw [parseStep_eq, hf] at h1
        exact absurd h1 (dinsert_ne_nil _ _ _)
    · rintro ⟨h1, h2⟩
      subst h1
      have hf := h2 f (List.mem_cons_self _ _)
      rw [parseStep_eq, hf]
      exact ⟨rfl, fun g hg => h2 g (List.mem_cons_of_mem _ hg)⟩

theorem foldl_parseStep_keys (frags : List Str) (d : Dict) (k : Int) :
    k ∈ dkeys (frags.foldl parseStep d) ↔
      k ∈ dkeys d ∨ ∃ f ∈ frags, ∃ v, fragPair f = some (k, v) := by
  induction frags generalizing d with
  | nil => simp
  | cons f fs ih =>
    rw [List.foldl_cons, ih]
    cases hf : fragPair f with
    | none =>
      rw [parseStep_eq, hf]
      constructor
      · rintro (h1 | h2)
        · exact Or.inl h1
        · exact Or.inr (by
            rcases h2 with ⟨g, hg, hv⟩
            exact ⟨g, List.mem_cons_of_mem _ hg, hv⟩)
      · rintro (h1 | ⟨g, hg, w, hw⟩)
        · exact Or.inl h1
        · rcases List.mem_cons.mp hg with rfl | hg2
          · rw [hf] at hw; cases hw
          · exact Or.inr ⟨g, hg2, w, hw⟩
    | some p =>
      rw [parseStep_eq, hf]
      rw [show (match some p with
          | some p => dinsert d p.1 p.2
          | none => d) = dinsert d p.1 p.2 from rfl]
      constructor
      · rintro (h1 | h2)
        · rcases mem_dkeys_dinsert.mp h1 with h3 | rfl
          · exact Or.inl h3
          · exact Or.inr ⟨f, List.mem_cons_self _ _, p.2, by rw [hf]⟩
        · rcases h2 with ⟨g, hg, w, hw⟩
          exact Or.inr ⟨g, List.mem_cons_of_mem _ hg, w, hw⟩
      · rintro (h1 | ⟨g, hg, w, hw⟩)
        · exact Or.inl (mem_dkeys_dinsert.mpr (Or.inl h1))
        · rcases List.mem_cons.mp hg with rfl | hg2
          · rw [hf] at hw
            have hp : p = (k, w) := by injection hw
            exact Or.inl (mem_dkeys_dinsert.mpr (Or.inr (by rw [hp])))
          · exact Or.inr ⟨g, hg2, w, hw⟩

/-! ## Sorting lemmas -/

theorem sortPairs_perm (d : Dict) : List.Perm (sortPairs d) d :=
  List.perm_insertionSort keyLe d

theorem sortPairs_sorted (d : Dict) : List.Sorted keyLe (sortPairs d) :=
  List.sorted_insertionSort keyLe d

theorem sorted_keyLt_of_nodup {l : Dict} (hs : List.Sorted keyLe l) (hn : (dkeys l).Nodup) :
    List.Sorted keyLt l := by
  induction l with
  | nil => simp
  | cons p ps ih =>
    rw [List.sorted_cons] at hs ⊢
    rw [dkeys_cons, List.nodup_cons] at hn
    refine ⟨?_, ih hs.2 hn.2⟩
    intro q hq
    have hle : p.1 ≤ q.1 := hs.1 q hq
    have hne : p.1 ≠ q.1 := fun he => hn.1 (he ▸ List.mem_map_of_mem (·.1) hq)
    exact lt_of_le_of_ne hle hne

theorem nodup_keys_sortPairs {d : Dict} (hn : (dkeys d).Nodup) :
    (dkeys (sortPairs d)).Nodup := by
  have hp : List.Perm (dkeys (sortPairs d)) (dkeys d) := by
    unfold dkeys
    exact (sortPairs_perm d).map _
  exact hp.nodup_iff.mpr hn

theorem sortPairs_eq_of_perm {l1 l2 : Dict} (h : List.Perm l1 l2) (hn : (dkeys l1).Nodup) :
    sortPairs l1 = sortPairs l2 := by
  have hn2 : (dkeys l2).Nodup := by
    have hp : List.Perm (dkeys l1) (dkeys l2) := by
      unfold dkeys
      exact h.map _
    exact hp.nodup_iff.mp hn
  exact List.eq_of_perm_of_sorted
    ((sortPairs_perm l1).trans (h.trans (sortPairs_perm l2).symm))
    (sorted_keyLt_of_nodup (sortPairs_sorted l1) (nodup_keys_sortPairs hn))
    (sorted_keyLt_of_nodup (sortPairs_sorted l2) (nodup_keys_sortPairs hn2))

/-! ## Lemmas about rendered fields -/

theorem intToChars_pos {i : Int} (h : 0 < i) : intToChars i = natToChars i.toNat := by
  unfold intToChars
  rw [if_neg (by omega)]

theorem partStr_ne_nil (p : Int × Str) : partStr p ≠ [] := by
  unfold partStr
  intro h
  rcases List.append_eq_nil.mp h with ⟨_, h2⟩
  cases h2

theorem partStr_chars {p : Int × Str} (hpos : 0 < p.1) {c : Char} (hc : c ∈ partStr p) :
    c ∈ p.2 ∨ c = '=' ∨ isDig c = true := by
  unfold partStr at hc
  rw [intToChars_pos hpos] at hc
  rcases List.mem_append.mp hc with h1 | h2
  · exact Or.inr (Or.inr (natToChars_all_dig _ c h1))
  · rcases List.mem_cons.mp h2 with rfl | h3
    · exact Or.inr (Or.inl rfl)
    · exact Or.inl h3

theorem fragPair_partStr {k : Int} {v : Str} (h : 0 < k) :
    fragPair (partStr (k, v)) = some (k, v) := by
  have heqm : '=' ∉ intToChars k := by
    rw [intToChars_pos h]
    intro hm
    exact (isDig_ne (natToChars_all_dig _ '=' hm)).2.2.1 rfl
  show fragPair (intToChars k ++ '=' :: v) = some (k, v)
  unfold fragPair
  rw [splitFirstEq_append heqm]
  show (match pyInt (intToChars k) with
        | some tag => some (tag, v)
        | none => none) = some (k, v)
  rw [intToChars_pos h, pyInt_natToChars]
  show some ((k.toNat : Int), v) = some (k, v)
  rw [Int.toNat_of_nonneg (le_of_lt h)]

theorem foldl_parseStep_partStr (pairs : Dict) (d : Dict)
    (hnd : (dkeys (d ++ pairs)).Nodup)
    (hpos : ∀ p ∈ pairs, 0 < p.1) :
    (pairs.map partStr).foldl parseStep d = d ++ pairs := by
  induction pairs generalizing d with
  | nil => simp
  | cons p ps ih =>
    rw [List.map_cons, List.foldl_cons]
    have hfrag : fragPair (partStr p) = some p := by
      obtain ⟨k, v⟩ := p
      exact fragPair_partStr (hpos (k, v) (List.mem_cons_self _ _))
    have hfresh : dcontains p.1 d = false := by
      rw [dcontains_false_iff]
      intro hm
      have h1 : (dkeys d ++ p.1 :: dkeys ps).Nodup := by
        rw [← dkeys_cons, ← dkeys_append]
        exact hnd
      have h2 := List.nodup_middle.mp h1
      rw [List.nodup_cons] at h2
      exact h2.1 (List.mem_append.mpr (Or.inl hm))
    have hstep : parseStep d (partStr p) = d ++ [p] := by
      rw [parseStep_eq, hfrag]
      show dinsert d p.1 p.2 = d ++ [p]
      rw [dinsert_fresh hfresh]
    rw [hstep]
    have hass : (d ++ [p]) ++ ps = d ++ p :: ps := by simp
    have ih' := ih (d ++ [p]) (by rw [hass]; exact hnd)
      (fun q hq => hpos q (List.mem_cons_of_mem _ hq))
    rw [ih', hass]

/-! ## Helper facts about the parser's delimiter normalisation -/

theorem normalizePM_soh (m : Str) :
    normalizePM SOH m = if PIPE ∈ m then replaceChar m PIPE SOH else m := by
  unfold normalizePM
  rw [if_neg (fun hand => absurd hand.1 (by decide))]
  by_cases hp : PIPE ∈ m
  · rw [if_pos ⟨rfl, hp⟩, if_pos hp]
  · rw [if_neg (fun hand => hp hand.2), if_neg hp]

/-- C10: with the standard-delimiter configuration, `parse_message` first
replaces every occurrence of the printable substitute `|` by the
canonical separator, so parsing any message gives the same mapping as
parsing the message with all pipes replaced; in particular a field value
containing a pipe is split at that pipe even in an otherwise canonically
delimited message. -/
theorem c10_parse_pipe_normalization :
    (∀ m : Str, parse_message SOH m = parse_message SOH (replaceChar m PIPE SOH)) ∧
    parse_message SOH ['5', '5', '=', 'X', '|', 'Y'] = [(55, ['X'])] := by
  constructor
  · intro m
    unfold parse_message
    rw [normalizePM_soh, normalizePM_soh]
    by_cases hp : PIPE ∈ m
    · rw [if_pos hp, if_neg (not_mem_replaceChar (by decide))]
    · rw [if_neg hp, replaceChar_not_mem hp, if_neg hp]
  · decide

theorem convert_fix_delimiter_some (msg : Str) (c : Char) :
    convert_fix_delimiter msg (some c) =
      (if c = SOH then some msg else some (replaceChar msg c SOH)) := rfl

theorem convert_fix_delimiter_none (msg : Str) :
    convert_fix_delimiter msg none =
      (match SUB_DELIMS.find? (fun d => hasSig d msg) with
       | some c => if c = SOH then some msg else some (replaceChar msg c SOH)
       | none => if SOH ∈ msg then some msg else none) := rfl

/-- C8: the delimiter normalizer fails exactly when no delimiter is
declared, no candidate signature matches, and the canonical separator is
absent; in every other case it returns the message unchanged or with
every occurrence of the declared-or-detected delimiter replaced by the
canonical separator. -/
theorem c8_normalize_failure_iff :
    ∀ (msg : Str) (cd : Option Char),
      (convert_fix_delimiter msg cd = none ↔
        cd = none ∧ (∀ d ∈ SUB_DELIMS, hasSig d msg = false) ∧ SOH ∉ msg) ∧
      (∀ r, convert_fix_delimiter msg cd = some r →
        r = msg ∨ ∃ c, r = replaceChar msg c SOH ∧
          (cd = some c ∨ (cd = none ∧
            SUB_DELIMS.find? (fun d => hasSig d msg) = some c))) := by
  intro msg cd
  cases cd with
  | some c =>
    rw [convert_fix_delimiter_some]
    constructor
    · constructor
      · intro h
        split at h <;> cases h
      · rintro ⟨h, _⟩
        cases h
    · intro r hr
      split at hr
      · injection hr with hr
        exact Or.inl hr.symm
      · injection hr with hr
        exact Or.inr ⟨c, hr.symm, Or.inl rfl⟩
  | none =>
    cases hf : SUB_DELIMS.find? (fun d => hasSig d msg) with
    | some c =>
      have hconv : convert_fix_delimiter msg none =
          (if c = SOH then some msg else some (replaceChar msg c SOH)) := by
        rw [convert_fix_delimiter_none, hf]
      constructor
      · rw [hconv]
        constructor
        · intro h
          split at h <;> cases h
        · rintro ⟨_, h2, _⟩
          have hp := List.find?_some hf
          have hcmem := List.mem_of_find?_eq_some hf
          rw [h2 c hcmem] at hp
          cases hp
      · intro r hr
        rw [hconv] at hr
        split at hr
        · injection hr with hr
          exact Or.inl hr.symm
        · injection hr with hr
          refine Or.inr ⟨c, hr.symm, Or.inr ⟨rfl, ?_⟩⟩
          rfl
    | none =>
      have hconv : convert_fix_delimiter msg none =
          (if SOH ∈ msg then some msg else none) := by
        rw [convert_fix_delimiter_none, hf]
      constructor
      · rw [hconv]
        by_cases hs : SOH ∈ msg
        · rw [if_pos hs]
          constructor
          · intro h
            cases h
          · rintro ⟨_, _, h3⟩
            exact absurd hs h3
        · rw [if_neg hs]
          constructor
          · intro _
            refine ⟨rfl, ?_, hs⟩
            intro d hd
            exact Bool.eq_false_iff.mpr (List.find?_eq_none.mp hf d hd)
          · intro _
            rfl
      · intro r hr
        rw [hconv] at hr
        split at hr
        · injection hr with hr
          exact Or.inl hr.symm
        · cases hr

/-- Witness for C8 at a concrete input: a message with no signature and no
canonical separator, and no declared delimiter, is rejected. -/
theorem c8_normalize_failure_iff_witness :
    convert_fix_delimiter ("abc".toList) none = none := by
  refine ((c8_normalize_failure_iff ("abc".toList) none).1).mpr ⟨rfl, ?_, ?_⟩
  · decide
  · decide

/-- C9: when no delimiter is declared and a message matches both the pipe
signature and the caret signature, detection picks the pipe (first in the
priority order), and normalisation replaces pipes. -/
theorem c9_detection_prefers_pipe :
    ∀ msg : Str, hasSig PIPE msg = true → hasSig '^' msg = true →
      SUB_DELIMS.find? (fun d => hasSig d msg) = some PIPE ∧
      convert_fix_delimiter msg none = some (replaceChar msg PIPE SOH) := by
  intro msg h1 _
  have hfind : SUB_DELIMS.find? (fun d => hasSig d msg) = some PIPE := by
    unfold SUB_DELIMS
    exact List.find?_cons_of_pos _ h1
  refine ⟨hfind, ?_⟩
  rw [convert_fix_delimiter_none, hfind]
  show (if PIPE = SOH then some msg else some (replaceChar msg PIPE SOH)) =
    some (replaceChar msg PIPE SOH)
  rw [if_neg (by decide)]

/-- Witness for C9 at a concrete adversarial message matching both the
pipe and the caret signatures. -/
theorem c9_detection_prefers_pipe_witness :
    hasSig PIPE ("8=FIX.4.2|9=18=FIX.4.4^9=1".toList) = true ∧
    hasSig '^' ("8=FIX.4.2|9=18=FIX.4.4^9=1".toList) = true ∧
    SUB_DELIMS.find? (fun d => hasSig d ("8=FIX.4.2|9=18=FIX.4.4^9=1".toList)) = some PIPE :=
  ⟨by decide, by decide,
    (c9_detection_prefers_pipe ("8=FIX.4.2|9=18=FIX.4.4^9=1".toList) (by decide) (by decide)).1⟩

/-- Claim C6 as stated is false on the code: parsing the single-field
message `0=x` (with the standard configuration) stores the key 0, which
is not a positive integer — Python `int` accepts zero and negative tag
texts. -/
theorem c6_counterexample :
    (0 : Int) ∈ dkeys (parse_message SOH ['0', '=', 'x']) ∧ ¬ (0 : Int) > 0 := by
  constructor
  · decide
  · decide

/-- C6 amended: every key of the parsed mapping is an integer obtained by
Python integer parsing of the tag text of some accepted fragment (not
necessarily positive), and the mapping is empty exactly when no fragment
of the normalised input is a valid `tag=value` field. -/
theorem c6_amended_parse_keys :
    ∀ (delim : Char) (m : Str),
      (∀ k : Int, k ∈ dkeys (parse_message delim m) ↔
        ∃ f ∈ splitOnChar delim (normalizePM delim m), ∃ v, fragPair f = some (k, v)) ∧
      (parse_message delim m = [] ↔
        ∀ f ∈ splitOnChar delim (normalizePM delim m), fragPair f = none) := by
  intro delim m
  constructor
  · intro k
    unfold parse_message
    rw [foldl_parseStep_keys]
    simp [dkeys]
  · unfold parse_message
    rw [foldl_parseStep_empty]
    simp

/-- Claim C7 as stated is false on the code: validating `49=X` parses a
non-empty mapping that lacks the message-type tag, and the returned
triple carries no mapping at all (the source returns `None` there, not
the partial mapping). -/
theorem c7_counterexample :
    parse_message SOH ['4', '9', '=', 'X'] = [(49, ['X'])] ∧
    parse_message SOH ['4', '9', '=', 'X'] ≠ [] ∧
    (validate_message SOH ['4', '9', '=', 'X']).dict? = none := by
  refine ⟨by decide, by decide, by decide⟩

/-! ## Reduction equations for the validator -/

theorem validateParsed_empty : validateParsed [] = .invalidEmpty := by
  unfold validateParsed
  rw [if_pos rfl]

theorem validateParsed_none {d : Dict} (hde : d ≠ []) (h35 : dlookup 35 d = none) :
    validateParsed d = .invalidMissingMsgType := by
  unfold validateParsed
  rw [if_neg hde, h35]

theorem validateParsed_some {d : Dict} {mt : Str} (hde : d ≠ []) (h35 : dlookup 35 d = some mt) :
    validateParsed d =
      (if mt ∈ MSG_TYPE_CODES then
        match REQUIRED_TAGS mt with
        | some req =>
          if req.toFinset \ (dkeys d).toFinset = ∅ then .valid d
          else .invalidMissingRequired mt (req.toFinset \ (dkeys d).toFinset) d
        | none => .valid d
      else .invalidUnknownType mt d) := by
  unfold validateParsed
  rw [if_neg hde, h35]

theorem validateParsed_unknown {d : Dict} {mt : Str} (hde : d ≠ [])
    (h35 : dlookup 35 d = some mt) (hmem : mt ∉ MSG_TYPE_CODES) :
    validateParsed d = .invalidUnknownType mt d := by
  rw [validateParsed_some hde h35, if_neg hmem]

theorem validateParsed_req {d : Dict} {mt : Str} {req : List Int} (hde : d ≠ [])
    (h35 : dlookup 35 d = some mt) (hmem : mt ∈ MSG_TYPE_CODES)
    (hreq : REQUIRED_TAGS mt = some req) :
    validateParsed d =
      (if req.toFinset \ (dkeys d).toFinset = ∅ then .valid d
       else .invalidMissingRequired mt (req.toFinset \ (dkeys d).toFinset) d) := by
  rw [validateParsed_some hde h35, if_pos hmem, hreq]

theorem validateParsed_noreq {d : Dict} {mt : Str} (hde : d ≠ [])
    (h35 : dlookup 35 d = some mt) (hmem : mt ∈ MSG_TYPE_CODES)
    (hreq : REQUIRED_TAGS mt = none) :
    validateParsed d = .valid d := by
  rw [validateParsed_some hde h35, if_pos hmem, hreq]

/-- C7 amended: the returned triple carries no mapping exactly when the
parse is empty or the message-type tag is absent; in every other case
(unknown type, missing required tags, valid) the mapping handed back is
the parsed mapping itself. -/
theorem c7_amended_partial_mapping :
    ∀ (delim : Char) (m : Str),
      ((validate_message delim m).dict? = none ↔
        parse_message delim m = [] ∨ dlookup 35 (parse_message delim m) = none) ∧
      (∀ pd, (validate_message delim m).dict? = some pd → pd = parse_message delim m) := by
  intro delim m
  unfold validate_message
  by_cases hde : parse_message delim m = []
  · rw [hde, validateParsed_empty]
    exact ⟨by simp [VResult.dict?, hde], fun pd hpd => by cases hpd⟩
  · cases h35 : dlookup 35 (parse_message delim m) with
    | none =>
      rw [validateParsed_none hde h35]
      exact ⟨by simp [VResult.dict?], fun pd hpd => by cases hpd⟩
    | some mt =>
      have hdict : (validateParsed (parse_message delim m)).dict? =
          some (parse_message delim m) := by
        by_cases hmem : mt ∈ MSG_TYPE_CODES
        · cases hreq : REQUIRED_TAGS mt with
          | some req =>
            rw [validateParsed_req hde h35 hmem hreq]
            by_cases hmiss : req.toFinset \ (dkeys (parse_message delim m)).toFinset = ∅
            · rw [if_pos hmiss]
              rfl
            · rw [if_neg hmiss]
              rfl
          | none =>
            rw [validateParsed_noreq hde h35 hmem hreq]
            rfl
        · rw [validateParsed_unknown hde h35 hmem]
          rfl
      rw [hdict]
      refine ⟨by simp [hde], fun pd hpd => ?_⟩
      injection hpd with hpd
      exact hpd.symm

/-- C4: the validator performs exactly the five checks in order with
short-circuiting — empty mapping, message-type presence, catalog
membership (still handing back the parsed mapping), required-tag set
difference, success. Each outcome is characterised exactly. -/
theorem c4_validate_order :
    ∀ d : Dict,
      (validateParsed d = .invalidEmpty ↔ d = []) ∧
      (validateParsed d = .invalidMissingMsgType ↔ d ≠ [] ∧ dlookup 35 d = none) ∧
      (∀ c pd, validateParsed d = .invalidUnknownType c pd ↔
        d ≠ [] ∧ dlookup 35 d = some c ∧ c ∉ MSG_TYPE_CODES ∧ pd = d) ∧
      (∀ t miss pd, validateParsed d = .invalidMissingRequired t miss pd ↔
        ∃ req, d ≠ [] ∧ dlookup 35 d = some t ∧ t ∈ MSG_TYPE_CODES ∧
          REQUIRED_TAGS t = some req ∧ miss = req.toFinset \ (dkeys d).toFinset ∧
          miss ≠ ∅ ∧ pd = d) ∧
      (validateParsed d = .valid d ↔
        d ≠ [] ∧ ∃ mt, dlookup 35 d = some mt ∧ mt ∈ MSG_TYPE_CODES ∧
          ∀ req, REQUIRED_TAGS mt = some req →
            req.toFinset \ (dkeys d).toFinset = ∅) := by
  intro d
  by_cases hde : d = []
  · subst hde
    rw [validateParsed_empty]
    refine ⟨by simp, by simp, fun c pd => by simp, fun t miss pd => by simp, by simp⟩
  · cases h35 : dlookup 35 d with
    | none =>
      rw [validateParsed_none hde h35]
      refine ⟨by simp [hde], by simp [hde], fun c pd => by simp,
        fun t miss pd => by simp, by simp [hde]⟩
    | some mt =>
      by_cases hmem : mt ∈ MSG_TYPE_CODES
      · cases hreq : REQUIRED_TAGS mt with
        | some req =>
          by_cases hmiss : req.toFinset \ (dkeys d).toFinset = ∅
          · rw [validateParsed_req hde h35 hmem hreq, if_pos hmiss]
            refine ⟨by simp [hde], by simp, ?_, ?_, ?_⟩
            · intro c pd
              constructor
              · intro he
                cases he
              · rintro ⟨_, hsome, hcmem, _⟩
                injection hsome with hsome
                exact absurd (hsome ▸ hmem) hcmem
            · intro t miss pd
              constructor
              · intro he
                cases he
              · rintro ⟨req2, _, hsome, _, hreq2, hmisseq, hmne, _⟩
                injection hsome with hsome
                subst hsome
                rw [hreq] at hreq2
                injection hreq2 with hreq2
                subst hreq2
                exact absurd (hmisseq.trans hmiss ▸ rfl : miss = ∅) hmne
            · constructor
              · intro _
                refine ⟨hde, mt, rfl, hmem, fun req2 hreq2 => ?_⟩
                rw [hreq] at hreq2
                injection hreq2 with hreq2
                subst hreq2
                exact hmiss
              · intro _
                rfl
          · rw [validateParsed_req hde h35 hmem hreq, if_neg hmiss]
            refine ⟨by simp [hde], by simp, ?_, ?_, ?_⟩
            · intro c pd
              constructor
              · intro he
                cases he
              · rintro ⟨_, hsome, hcmem, _⟩
                injection hsome with hsome
                exact absurd (hsome ▸ hmem) hcmem
            · intro t miss pd
              constructor
              · intro he
                injection he with h1 h2 h3
                exact ⟨req, hde, by rw [h1], h1 ▸ hmem, h1 ▸ hreq, h2.symm, h2 ▸ hmiss,
                  h3.symm⟩
              · rintro ⟨req2, _, hsome, _, hreq2, hmisseq, _, rfl⟩
                injection hsome with hsome
                subst hsome
                rw [hreq] at hreq2
                injection hreq2 with hreq2
                subst hreq2
                rw [hmisseq]
            · constructor
              · intro he
                cases he
              · rintro ⟨_, mt2, hsome, _, hall⟩
                injection hsome with hsome
                subst hsome
                exact absurd (hall req hreq) hmiss
        | none =>
          rw [validateParsed_noreq hde h35 hmem hreq]
          refine ⟨by simp [hde], by simp, ?_, ?_, ?_⟩
          · intro c pd
            constructor
            · intro he
              cases he
            · rintro ⟨_, hsome, hcmem, _⟩
              injection hsome with hsome
              exact absurd (hsome ▸ hmem) hcmem
          · intro t miss pd
            constructor
            · intro he
              cases he
            · rintro ⟨req2, _, hsome, _, hreq2, _, _, _⟩
              injection hsome with hsome
              subst hsome
              rw [hreq] at hreq2
              cases hreq2
          · constructor
            · intro _
              refine ⟨hde, mt, rfl, hmem, fun req2 hreq2 => ?_⟩
              rw [hreq] at hreq2
              cases hreq2
            · intro _
              rfl
      · rw [validateParsed_unknown hde h35 hmem]
        refine ⟨by simp [hde], by simp, ?_, ?_, ?_⟩
        · intro c pd
          constructor
          · intro he
            injection he with h1 h2
            exact ⟨hde, by rw [h1], h1 ▸ hmem, h2.symm⟩
          · rintro ⟨_, hsome, hcmem, rfl⟩
            injection hsome with hsome
            subst hsome
            rfl
        · intro t miss pd
          constructor
          · intro he
            cases he
          · rintro ⟨req2, _, hsome, htmem, _, _, _, _⟩
            injection hsome with hsome
            exact absurd (hsome ▸ htmem) hmem
        · constructor
          · intro he
            cases he
          · rintro ⟨_, mt2, hsome, hmem2, _⟩
            injection hsome with hsome
            exact absurd (hsome ▸ hmem2) hmem

/-- C5 (supporting evaluation): at a New Order - Single message carrying
every required tag except 11 and 40, the validator computes the missing
set as exactly the set difference of the required set and the present
keys. The source then renders that Python set by plain set iteration
(hash order — 40 before 11 for this input in CPython), not in the
ascending numeric order the specification requires. -/
theorem c5_missing_required_eval :
    validate_message SOH (joinWith SOH
      ["35=D".toList, "49=S".toList, "56=T".toList, "34=1".toList, "52=X".toList,
       "21=1".toList, "55=A".toList, "54=1".toList, "60=X".toList]) =
    .invalidMissingRequired ("D".toList) ({11, 40} : Finset Int)
      [(35, "D".toList), (49, "S".toList), (56, "T".toList), (34, "1".toList),
       (52, "X".toList), (21, "1".toList), (55, "A".toList), (54, "1".toList),
       (60, "X".toList)] := by
  decide

/-! ## Properties of the combined field dict -/

theorem dlookup_putIfAbsent_mono {d : Dict} {k k0 : Int} {v v0 : Str}
    (h : dlookup k d = some v) : dlookup k (putIfAbsent d k0 v0) = some v := by
  by_cases hk : k0 = k
  · subst hk
    rw [dlookup_putIfAbsent_same, h]
    rfl
  · rw [dlookup_putIfAbsent_ne hk, h]

theorem combined_fields_lookup_mono {now t : Str} {F : Dict} {k : Int} {v : Str}
    (h : dlookup k F = some v) :
    dlookup k (combined_fields now t F) = some v := by
  unfold combined_fields
  exact dlookup_putIfAbsent_mono (dlookup_putIfAbsent_mono (dlookup_putIfAbsent_mono h))

theorem combined_fields_lookup35 (now t : Str) (F : Dict) :
    dlookup 35 (combined_fields now t F) = (dlookup 35 F).or (some t) := by
  unfold combined_fields
  rw [dlookup_putIfAbsent_ne (by decide), dlookup_putIfAbsent_ne (by decide),
    dlookup_putIfAbsent_same]

theorem combined_fields_lookup8 (now t : Str) (F : Dict) :
    dlookup 8 (combined_fields now t F) = (dlookup 8 F).or (some FIX_VERSION_STR) := by
  unfold combined_fields
  rw [dlookup_putIfAbsent_ne (by decide), dlookup_putIfAbsent_same,
    dlookup_putIfAbsent_ne (by decide)]

theorem combined_fields_lookup52 (now t : Str) (F : Dict) :
    dlookup 52 (combined_fields now t F) = (dlookup 52 F).or (some now) := by
  unfold combined_fields
  rw [dlookup_putIfAbsent_same, dlookup_putIfAbsent_ne (by decide),
    dlookup_putIfAbsent_ne (by decide)]

theorem combined_fields_nodup {F : Dict} (hn : (dkeys F).Nodup) (now t : Str) :
    (dkeys (combined_fields now t F)).Nodup := by
  unfold combined_fields
  exact nodup_putIfAbsent (nodup_putIfAbsent (nodup_putIfAbsent hn))

theorem combined_fields_mem {now t : Str} {F : Dict} {p : Int × Str}
    (h : p ∈ combined_fields now t F) :
    p ∈ F ∨ p = (35, t) ∨ p = (8, FIX_VERSION_STR) ∨ p = (52, now) := by
  unfold combined_fields at h
  rcases mem_putIfAbsent h with h1 | rfl
  · rcases mem_putIfAbsent h1 with h2 | rfl
    · rcases mem_putIfAbsent h2 with h3 | rfl
      · exact Or.inl h3
      · exact Or.inr (Or.inl rfl)
    · exact Or.inr (Or.inr (Or.inl rfl))
  · exact Or.inr (Or.inr (Or.inr rfl))

theorem dkeys_mem_of_mem {p : Int × Str} {d : Dict} (h : p ∈ d) : p.1 ∈ dkeys d := by
  unfold dkeys
  exact List.mem_map_of_mem _ h

theorem mem_dkeys_exists {k : Int} {d : Dict} (h : k ∈ dkeys d) : ∃ p ∈ d, p.1 = k := by
  unfold dkeys at h
  rcases List.mem_map.mp h with ⟨p, hp, he⟩
  exact ⟨p, hp, he⟩

theorem combined_fields_keys_pos {now t : Str} {F : Dict}
    (hpos : ∀ k ∈ dkeys F, 0 < k) :
    ∀ k ∈ dkeys (combined_fields now t F), 0 < k := by
  intro k hk
  rcases mem_dkeys_exists hk with ⟨p, hp, rfl⟩
  rcases combined_fields_mem hp with h1 | rfl | rfl | rfl
  · exact hpos p.1 (List.mem_map_of_mem _ h1)
  · exact (by decide : (0 : Int) < 35)
  · exact (by decide : (0 : Int) < 8)
  · exact (by decide : (0 : Int) < 52)

theorem combined_fields_keys_ge8 {now t : Str} {F : Dict}
    (hge : ∀ k ∈ dkeys F, 8 ≤ k) :
    ∀ k ∈ dkeys (combined_fields now t F), 8 ≤ k := by
  intro k hk
  rcases mem_dkeys_exists hk with ⟨p, hp, rfl⟩
  rcases combined_fields_mem hp with h1 | rfl | rfl | rfl
  · exact hge p.1 (List.mem_map_of_mem _ h1)
  · exact (by decide : (8 : Int) ≤ 35)
  · exact (by decide : (8 : Int) ≤ 8)
  · exact (by decide : (8 : Int) ≤ 52)

theorem combined_fields_keys_not9 {now t : Str} {F : Dict} (h9 : 9 ∉ dkeys F) :
    9 ∉ dkeys (combined_fields now t F) := by
  intro hk
  rcases mem_dkeys_exists hk with ⟨p, hp, hpk⟩
  rcases combined_fields_mem hp with h1 | rfl | rfl | rfl
  · exact h9 (hpk ▸ List.mem_map_of_mem (·.1) h1)
  · exact absurd hpk (by decide : ¬ (35 : Int) = 9)
  · exact absurd hpk (by decide : ¬ (8 : Int) = 9)
  · exact absurd hpk (by decide : ¬ (52 : Int) = 9)

theorem combined_fields_keys_not10 {now t : Str} {F : Dict} (h10 : 10 ∉ dkeys F) :
    10 ∉ dkeys (combined_fields now t F) := by
  intro hk
  rcases mem_dkeys_exists hk with ⟨p, hp, hpk⟩
  rcases combined_fields_mem hp with h1 | rfl | rfl | rfl
  · exact h10 (hpk ▸ List.mem_map_of_mem (·.1) h1)
  · exact absurd hpk (by decide : ¬ (35 : Int) = 10)
  · exact absurd hpk (by decide : ¬ (8 : Int) = 10)
  · exact absurd hpk (by decide : ¬ (52 : Int) = 10)

theorem combined_fields_values_soh {now t : Str} {F : Dict}
    (hval : ∀ p ∈ F, SOH ∉ p.2) (ht : SOH ∉ t) (hnow : SOH ∉ now) :
    ∀ p ∈ combined_fields now t F, SOH ∉ p.2 := by
  intro p hp
  rcases combined_fields_mem hp with h1 | rfl | rfl | rfl
  · exact hval p h1
  · exact ht
  · decide
  · exact hnow

theorem combined_fields_values_pipe {now t : Str} {F : Dict}
    (hval : ∀ p ∈ F, PIPE ∉ p.2) (ht : PIPE ∉ t) (hnow : PIPE ∉ now) :
    ∀ p ∈ combined_fields now t F, PIPE ∉ p.2 := by
  intro p hp
  rcases combined_fields_mem hp with h1 | rfl | rfl | rfl
  · exact hval p h1
  · exact ht
  · decide
  · exact hnow

theorem combined_fields_contains35 (now t : Str) (F : Dict) :
    35 ∈ dkeys (combined_fields now t F) := by
  by_contra hk
  have h := combined_fields_lookup35 now t F
  rw [dlookup_eq_none_iff.mpr hk] at h
  cases hc : dlookup 35 F with
  | none => rw [hc] at h; cases h
  | some v => rw [hc] at h; cases h

theorem combined_fields_contains8 (now t : Str) (F : Dict) :
    8 ∈ dkeys (combined_fields now t F) := by
  by_contra hk
  have h := combined_fields_lookup8 now t F
  rw [dlookup_eq_none_iff.mpr hk] at h
  cases hc : dlookup 8 F with
  | none => rw [hc] at h; cases h
  | some v => rw [hc] at h; cases h

/-! ## Structure of the built message -/

theorem dkeys_sortPairs_mem {d : Dict} {k : Int} :
    k ∈ dkeys (sortPairs d) ↔ k ∈ dkeys d := by
  have hp : List.Perm (dkeys (sortPairs d)) (dkeys d) := by
    unfold dkeys
    exact (sortPairs_perm d).map _
  exact hp.mem_iff

theorem filter910_eq_self {d : Dict} (h9 : 9 ∉ dkeys d) (h10 : 10 ∉ dkeys d) :
    d.filter (fun p => !(p.1 == 9) && !(p.1 == 10)) = d := by
  apply List.filter_eq_self.mpr
  intro p hp
  have h1 : p.1 ≠ 9 := fun he => h9 (he ▸ List.mem_map_of_mem (·.1) hp)
  have h2 : p.1 ≠ 10 := fun he => h10 (he ▸ List.mem_map_of_mem (·.1) hp)
  simp [h1, h2]

theorem dictParts_eq_map {d : Dict} (h9 : 9 ∉ dkeys d) (h10 : 10 ∉ dkeys d) :
    dictParts d = (sortPairs d).map partStr := by
  unfold dictParts
  rw [filter910_eq_self (fun hk => h9 (dkeys_sortPairs_mem.mp hk))
    (fun hk => h10 (dkeys_sortPairs_mem.mp hk))]

theorem map_partStr_soh_free {d : Dict} (hpos : ∀ k ∈ dkeys d, 0 < k)
    (hval : ∀ p ∈ d, SOH ∉ p.2) : ∀ s ∈ d.map partStr, SOH ∉ s := by
  intro s hs hmem
  rcases List.mem_map.mp hs with ⟨p, hp, rfl⟩
  rcases partStr_chars (hpos p.1 (List.mem_map_of_mem _ hp)) hmem with h1 | h2 | h3
  · exact hval p hp h1
  · exact absurd h2 (by decide)
  · exact absurd h3 (by decide)

theorem map_partStr_pipe_free {d : Dict} (hpos : ∀ k ∈ dkeys d, 0 < k)
    (hval : ∀ p ∈ d, PIPE ∉ p.2) : ∀ s ∈ d.map partStr, PIPE ∉ s := by
  intro s hs hmem
  rcases List.mem_map.mp hs with ⟨p, hp, rfl⟩
  rcases partStr_chars (hpos p.1 (List.mem_map_of_mem _ hp)) hmem with h1 | h2 | h3
  · exact hval p hp h1
  · exact absurd h2 (by decide)
  · exact absurd h3 (by decide)

theorem map_partStr_ne_nil (d : Dict) : ∀ s ∈ d.map partStr, s ≠ [] := by
  intro s hs
  rcases List.mem_map.mp hs with ⟨p, _, rfl⟩
  exact partStr_ne_nil p

theorem joinWith_first_split {d : Char} {p : Str} {ps : List Str} (hp : d ∉ p)
    (hps : ps ≠ []) :
    pyFindPlus1 d (joinWith d (p :: ps)) = p.length + 1 ∧
    (joinWith d (p :: ps)).take (p.length + 1) = p ++ [d] ∧
    (joinWith d (p :: ps)).drop (p.length + 1) = joinWith d ps := by
  cases ps with
  | nil => cases hps rfl
  | cons q qs =>
    rw [joinWith_cons_cons]
    refine ⟨?_, ?_, ?_⟩
    · unfold pyFindPlus1
      rw [findChar_append_cons hp]
    · rw [List.take_append 1]
      rfl
    · rw [List.drop_append 1]
      rfl

theorem dkeys_filter910_mem {d : Dict} {k : Int} :
    k ∈ dkeys (d.filter (fun p => !(p.1 == 9) && !(p.1 == 10))) ↔
      k ∈ dkeys d ∧ k ≠ 9 ∧ k ≠ 10 := by
  constructor
  · intro hk
    rcases mem_dkeys_exists hk with ⟨p, hp, rfl⟩
    have hm := List.mem_of_mem_filter hp
    have hcond := List.of_mem_filter hp
    simp only [Bool.and_eq_true, Bool.not_eq_true', beq_eq_false_iff_ne] at hcond
    exact ⟨List.mem_map_of_mem _ hm, hcond.1, hcond.2⟩
  · rintro ⟨hk, h9, h10⟩
    rcases mem_dkeys_exists hk with ⟨p, hp, rfl⟩
    refine List.mem_map_of_mem (·.1) (List.mem_filter.mpr ⟨hp, ?_⟩)
    simp only [Bool.and_eq_true, Bool.not_eq_true', beq_eq_false_iff_ne]
    exact ⟨h9, h10⟩

theorem mem_filter910_subset {d : Dict} {p : Int × Str}
    (hp : p ∈ (sortPairs d).filter (fun q => !(q.1 == 9) && !(q.1 == 10))) : p ∈ d :=
  (sortPairs_perm d).mem_iff.mp (List.mem_of_mem_filter hp)

/-- Central structural fact about the builder: when the sorted, 9/10-free
field list is `q0 :: qs` with `qs` non-empty, the joined message splits
at the first separator after `q0`, the body length is the length of the
tail join (no trailing separator exists), and the body-length field is
spliced in right after `q0`. -/
theorem build_structure (d : Dict) {q0 : Int × Str} {qs : Dict}
    (hS : (sortPairs d).filter (fun p => !(p.1 == 9) && !(p.1 == 10)) = q0 :: qs)
    (hqs : qs ≠ [])
    (hpos : ∀ k ∈ dkeys d, 0 < k)
    (hval : ∀ p ∈ d, SOH ∉ p.2) :
    build_without_length SOH d = joinWith SOH ((q0 :: qs).map partStr) ∧
    (build_without_length SOH d).getLast? ≠ some SOH ∧
    build_body_start SOH d = (partStr q0).length + 1 ∧
    build_body_length SOH d = (joinWith SOH (qs.map partStr)).length ∧
    (build_without_length SOH d).drop (build_body_start SOH d) =
      joinWith SOH (qs.map partStr) ∧
    build_with_length SOH d =
      partStr q0 ++ SOH :: ('9' :: '=' :: natToChars (build_body_length SOH d)) ++
        SOH :: joinWith SOH (qs.map partStr) := by
  have hposf : ∀ k ∈ dkeys (q0 :: qs), 0 < k := by
    intro k hk
    rcases mem_dkeys_exists hk with ⟨p, hp, rfl⟩
    exact hpos p.1 (List.mem_map_of_mem _ (mem_filter910_subset (hS ▸ hp)))
  have hvalf : ∀ p ∈ (q0 :: qs), SOH ∉ p.2 := by
    intro p hp
    exact hval p (mem_filter910_subset (hS ▸ hp))
  have hfree : ∀ s ∈ (q0 :: qs).map partStr, SOH ∉ s := map_partStr_soh_free hposf hvalf
  have hnil : ∀ s ∈ (q0 :: qs).map partStr, s ≠ [] := map_partStr_ne_nil _
  have hparts : dictParts d = partStr q0 :: qs.map partStr := by
    unfold dictParts
    rw [hS, List.map_cons]
  have hq0free : SOH ∉ partStr q0 := hfree _ (List.mem_cons_self _ _)
  have hqsne : qs.map partStr ≠ [] := fun h => hqs (List.map_eq_nil_iff.mp h)
  have hwol : build_without_length SOH d = joinWith SOH (partStr q0 :: qs.map partStr) := by
    unfold build_without_length
    rw [hparts]
  obtain ⟨hfind, htake, hdrop⟩ := joinWith_first_split hq0free hqsne
  have hstart : build_body_start SOH d = (partStr q0).length + 1 := by
    unfold build_body_start
    rw [hwol]
    exact hfind
  have hlen : build_body_length SOH d = (joinWith SOH (qs.map partStr)).length := by
    unfold build_body_length
    rw [hwol, hstart]
    cases hq : qs.map partStr with
    | nil => cases hqsne hq
    | cons r rs =>
      rw [joinWith_cons_cons]
      simp only [List.length_append, List.length_cons]
      omega
  have hdrop2 : (build_without_length SOH d).drop (build_body_start SOH d) =
      joinWith SOH (qs.map partStr) := by
    rw [hwol, hstart]
    exact hdrop
  have hlast : (build_without_length SOH d).getLast? ≠ some SOH := by
    rw [hwol]
    exact joinWith_getLast_ne (by simp) hnil hfree
  have hwl : build_with_length SOH d =
      partStr q0 ++ SOH :: ('9' :: '=' :: natToChars (build_body_length SOH d)) ++
        SOH :: joinWith SOH (qs.map partStr) := by
    unfold build_with_length
    rw [hwol, hstart, htake, hdrop]
    have h9chars : intToChars 9 = ['9'] := rfl
    rw [h9chars]
    simp [List.append_assoc]
  exact ⟨by rw [hwol, List.map_cons], hlast, hstart, hlen, hdrop2, hwl⟩

/-- Claim C3 as stated is false on the code: at a concrete build (type 0,
one caller field `49=X`, injected time `T`) the code's join carries no
trailing separator and computes body length 14, while the claim's
joined-with-trailing-separator reading yields 15. -/
theorem c3_counterexample :
    build_without_length SOH (combined_fields ['T'] ['0'] [(49, ['X'])]) ≠
      claimJoinedTrailing SOH (combined_fields ['T'] ['0'] [(49, ['X'])]) ∧
    build_body_length SOH (combined_fields ['T'] ['0'] [(49, ['X'])]) = 14 ∧
    claimBodyLength SOH (combined_fields ['T'] ['0'] [(49, ['X'])]) = 15 := by
  refine ⟨by decide, by decide, by decide⟩

/-- C3 amended: the builder renders the tag-sorted fields with 9 and 10
always excluded, joined by the canonical separator with NO trailing
separator after the last field; the begin-string field is first (for
caller tags at least 8), the body-length value is the character count of
everything after the first separator up to the end of the joined string,
and `9=<length>` plus a separator is spliced in immediately after the
begin-string field. -/
theorem c3_amended_body_length (now t : Str) (F : Dict)
    (hnod : (dkeys F).Nodup)
    (hpos : ∀ k ∈ dkeys F, 0 < k)
    (hge8 : ∀ k ∈ dkeys F, 8 ≤ k)
    (hval : ∀ p ∈ F, SOH ∉ p.2)
    (ht : SOH ∉ t) (hnow : SOH ∉ now) :
    ∃ q0 qs,
      (sortPairs (combined_fields now t F)).filter
        (fun p => !(p.1 == 9) && !(p.1 == 10)) = q0 :: qs ∧
      q0.1 = 8 ∧
      List.Pairwise keyLt (q0 :: qs) ∧
      (∀ p ∈ q0 :: qs, p.1 ≠ 9 ∧ p.1 ≠ 10) ∧
      build_without_length SOH (combined_fields now t F) =
        joinWith SOH ((q0 :: qs).map partStr) ∧
      (build_without_length SOH (combined_fields now t F)).getLast? ≠ some SOH ∧
      build_body_length SOH (combined_fields now t F) =
        ((build_without_length SOH (combined_fields now t F)).drop
          (build_body_start SOH (combined_fields now t F))).length ∧
      build_body_start SOH (combined_fields now t F) = (partStr q0).length + 1 ∧
      build_with_length SOH (combined_fields now t F) =
        partStr q0 ++ SOH :: ('9' :: '=' ::
          natToChars (build_body_length SOH (combined_fields now t F))) ++
          SOH :: joinWith SOH (qs.map partStr) := by
  have hnodc : (dkeys (combined_fields now t F)).Nodup := combined_fields_nodup hnod now t
  have hposc : ∀ k ∈ dkeys (combined_fields now t F), 0 < k := combined_fields_keys_pos hpos
  have hgec : ∀ k ∈ dkeys (combined_fields now t F), 8 ≤ k := combined_fields_keys_ge8 hge8
  have hvalc : ∀ p ∈ combined_fields now t F, SOH ∉ p.2 :=
    combined_fields_values_soh hval ht hnow
  have h35k : (35 : Int) ∈ dkeys ((sortPairs (combined_fields now t F)).filter
      (fun p => !(p.1 == 9) && !(p.1 == 10))) :=
    dkeys_filter910_mem.mpr ⟨dkeys_sortPairs_mem.mpr (combined_fields_contains35 now t F),
      by decide, by decide⟩
  have h8k : (8 : Int) ∈ dkeys ((sortPairs (combined_fields now t F)).filter
      (fun p => !(p.1 == 9) && !(p.1 == 10))) :=
    dkeys_filter910_mem.mpr ⟨dkeys_sortPairs_mem.mpr (combined_fields_contains8 now t F),
      by decide, by decide⟩
  have hsorted : List.Sorted keyLe ((sortPairs (combined_fields now t F)).filter
      (fun p => !(p.1 == 9) && !(p.1 == 10))) :=
    List.Pairwise.sublist (List.filter_sublist _) (sortPairs_sorted _)
  have hnodf : (dkeys ((sortPairs (combined_fields now t F)).filter
      (fun p => !(p.1 == 9) && !(p.1 == 10)))).Nodup :=
    List.Nodup.sublist (List.Sublist.map _ (List.filter_sublist _))
      (nodup_keys_sortPairs hnodc)
  have hstrict := sorted_keyLt_of_nodup hsorted hnodf
  cases hS : (sortPairs (combined_fields now t F)).filter
      (fun p => !(p.1 == 9) && !(p.1 == 10)) with
  | nil =>
    rw [hS] at h35k
    simp [dkeys] at h35k
  | cons q0 qs =>
    cases qs with
    | nil =>
      exfalso
      rw [hS] at h35k h8k
      simp [dkeys] at h35k h8k
      omega
    | cons q1 qs2 =>
      have hsortedf : List.Pairwise keyLt (q0 :: q1 :: qs2) := hS ▸ hstrict
      have hsortedLe : List.Sorted keyLe (q0 :: q1 :: qs2) := hS ▸ hsorted
      have hq08 : q0.1 = 8 := by
        have hge : 8 ≤ q0.1 := hgec q0.1 (dkeys_sortPairs_mem.mp
          ((dkeys_filter910_mem.mp (by
            rw [hS]
            exact dkeys_mem_of_mem (List.mem_cons_self _ _))).1))
        have hle : q0.1 ≤ 8 := by
          rcases mem_dkeys_exists (hS ▸ h8k) with ⟨p, hp, hpk⟩
          rcases List.mem_cons.mp hp with rfl | hp2
          · omega
          · have hkl : q0.1 ≤ p.1 := (List.sorted_cons.mp hsortedLe).1 p hp2
            omega
        omega
      have hnot : ∀ p ∈ q0 :: q1 :: qs2, p.1 ≠ 9 ∧ p.1 ≠ 10 := by
        intro p hp
        have hk := dkeys_filter910_mem.mp (by
          rw [hS]
          exact dkeys_mem_of_mem hp)
        exact ⟨hk.2.1, hk.2.2⟩
      obtain ⟨hwol, hlast, hstart, hlen, hdropeq, hwl⟩ :=
        build_structure (combined_fields now t F) hS (by simp) hposc hvalc
      refine ⟨q0, q1 :: qs2, rfl, hq08, hsortedf, hnot, hwol, hlast, ?_, hstart, hwl⟩
      rw [hdropeq, hlen]

/-- Witness for C3 amended at a concrete input: the body length equals the
character count after the first separator. -/
theorem c3_amended_body_length_witness :
    build_body_length SOH (combined_fields ['T'] ['0'] [(49, ['X'])]) =
      ((build_without_length SOH (combined_fields ['T'] ['0'] [(49, ['X'])])).drop
        (build_body_start SOH (combined_fields ['T'] ['0'] [(49, ['X'])]))).length := by
  obtain ⟨q0, qs, h⟩ := c3_amended_body_length ['T'] ['0'] [(49, ['X'])]
    (by decide) (by decide) (by decide) (by decide) (by decide) (by decide)
  exact h.2.2.2.2.2.2.1

theorem replaceChar_self (s : Str) (a : Char) : replaceChar s a a = s := by
  unfold replaceChar
  have hc : ∀ c ∈ s, (if c = a then a else c) = id c := by
    intro c _
    by_cases h : c = a
    · rw [if_pos h, h]
      rfl
    · rw [if_neg h]
      rfl
  rw [List.map_congr_left hc, List.map_id]

theorem pyFormat3_all_dig (n : Nat) : ∀ c ∈ pyFormat3 n, isDig c = true := by
  intro c hc
  unfold pyFormat3 at hc
  rcases List.mem_append.mp hc with h1 | h2
  · have he := List.eq_of_mem_replicate h1
    subst he
    decide
  · exact natToChars_all_dig _ _ h2

/-- C2: the checksum the builder appends equals the mod-256 code-point
sum of the message-with-body-length taken in its canonical-separator form
(the printable separator, when configured, being folded to the canonical
one first), hence lies below 256; it is rendered as exactly three
zero-padded decimal digits whose value is the checksum, and it forms the
final field, with no separator after it. -/
theorem c2_checksum (delim : Char) (now t : Str) (F : Dict)
    (hd : delim = SOH ∨ delim = PIPE) :
    create_message delim now t F =
      build_with_length delim (combined_fields now t F) ++
        delim :: '1' :: '0' :: '=' ::
          pyFormat3 (build_checksum delim (combined_fields now t F)) ∧
    build_checksum delim (combined_fields now t F) =
      sumCodes (replaceChar (build_with_length delim (combined_fields now t F))
        delim SOH) % 256 ∧
    build_checksum delim (combined_fields now t F) < 256 ∧
    (pyFormat3 (build_checksum delim (combined_fields now t F))).length = 3 ∧
    digitsVal (pyFormat3 (build_checksum delim (combined_fields now t F))) =
      build_checksum delim (combined_fields now t F) ∧
    (create_message delim now t F).getLast? ≠ some delim := by
  have h10chars : intToChars 10 = ['1', '0'] := by decide
  have hcreq : create_message delim now t F =
      build_with_length delim (combined_fields now t F) ++
        delim :: '1' :: '0' :: '=' ::
          pyFormat3 (build_checksum delim (combined_fields now t F)) := by
    unfold create_message
    rw [h10chars]
    simp
  have hck : build_checksum delim (combined_fields now t F) =
      sumCodes (replaceChar (build_with_length delim (combined_fields now t F))
        delim SOH) % 256 := by
    unfold build_checksum
    rcases hd with rfl | rfl
    · rw [if_neg (by decide : ¬ SOH = PIPE), replaceChar_self]
    · rw [if_pos rfl]
  have hlt : build_checksum delim (combined_fields now t F) < 256 := by
    unfold build_checksum
    exact Nat.mod_lt _ (by omega)
  have hfmt3 : (pyFormat3 (build_checksum delim (combined_fields now t F))).length = 3 :=
    pyFormat3_length (by omega)
  have hfmtne : pyFormat3 (build_checksum delim (combined_fields now t F)) ≠ [] := by
    intro h
    rw [h] at hfmt3
    cases hfmt3
  have hlastd : (create_message delim now t F).getLast? ≠ some delim := by
    rw [hcreq]
    have hassoc : build_with_length delim (combined_fields now t F) ++
        delim :: '1' :: '0' :: '=' ::
          pyFormat3 (build_checksum delim (combined_fields now t F)) =
        (build_with_length delim (combined_fields now t F) ++
          delim :: '1' :: '0' :: ['=']) ++
          pyFormat3 (build_checksum delim (combined_fields now t F)) := by
      simp
    rw [hassoc, List.getLast?_append]
    cases hg : (pyFormat3 (build_checksum delim (combined_fields now t F))).getLast? with
    | none => exact absurd (List.getLast?_eq_none_iff.mp hg) hfmtne
    | some x =>
      have hx : isDig x = true :=
        pyFormat3_all_dig _ x (List.mem_of_mem_getLast? (Option.mem_def.mpr hg))
      show Option.some x ≠ some delim
      intro he
      injection he with he
      subst he
      rcases hd with rfl | rfl
      · exact (isDig_ne hx).1 rfl
      · exact (isDig_ne hx).2.1 rfl
  exact ⟨hcreq, hck, hlt, hfmt3, digitsVal_pyFormat3 _, hlastd⟩

/-- Witness for C2 with the printable-separator configuration at a
concrete input. -/
theorem c2_checksum_witness :
    (PIPE = SOH ∨ PIPE = PIPE) ∧
    build_checksum PIPE (combined_fields ['T'] ['0'] [(49, ['X'])]) < 256 :=
  ⟨Or.inr rfl, (c2_checksum PIPE ['T'] ['0'] [(49, ['X'])] (Or.inr rfl)).2.2.1⟩

theorem joinWith_cons_ne {d : Char} {x : Str} {ys : List Str} (h : ys ≠ []) :
    joinWith d (x :: ys) = x ++ d :: joinWith d ys := by
  cases ys with
  | nil => cases h rfl
  | cons r rs => rw [joinWith_cons_cons]

theorem build_congr {d1 d2 : Dict} (h : dictParts d1 = dictParts d2) :
    build_without_length SOH d1 = build_without_length SOH d2 ∧
    build_body_start SOH d1 = build_body_start SOH d2 ∧
    build_body_length SOH d1 = build_body_length SOH d2 ∧
    build_with_length SOH d1 = build_with_length SOH d2 ∧
    build_checksum SOH d1 = build_checksum SOH d2 := by
  have h1 : build_without_length SOH d1 = build_without_length SOH d2 := by
    unfold build_without_length
    rw [h]
  have h2 : build_body_start SOH d1 = build_body_start SOH d2 := by
    unfold build_body_start
    rw [h1]
  have h3 : build_body_length SOH d1 = build_body_length SOH d2 := by
    unfold build_body_length
    rw [h1, h2]
  have h4 : build_with_length SOH d1 = build_with_length SOH d2 := by
    unfold build_with_length
    rw [h1, h2, h3]
  have h5 : build_checksum SOH d1 = build_checksum SOH d2 := by
    unfold build_checksum
    rw [h4]
  exact ⟨h1, h2, h3, h4, h5⟩

/-- Claim C1 as stated is false on the code: with a caller field 9 (whose
value the builder always recomputes) and a value containing the printable
pipe (which the parser folds into the canonical separator), the parsed
output of the built message retains neither. -/
theorem c1_counterexample :
    dlookup 9 (parse_message SOH (create_message SOH ['T'] ['0']
      [(9, ['7']), (55, ['A', '|', 'B'])])) ≠ some ['7'] ∧
    dlookup 55 (parse_message SOH (create_message SOH ['T'] ['0']
      [(9, ['7']), (55, ['A', '|', 'B'])])) ≠ some ['A', '|', 'B'] := by
  refine ⟨by decide, by decide⟩

/-- C1 amended: for caller fields with distinct positive tags other than
9 and 10, and values, message type and timestamp free of the canonical
separator and the printable pipe, parsing the built message recovers
every caller field and the inserted header fields, the parsed tags 9 and
10 hold the embedded body length and checksum, and recomputing body
length and checksum from the parsed mapping reproduces the embedded
values. -/
theorem c1_amended_roundtrip (now t : Str) (F : Dict)
    (hnod : (dkeys F).Nodup)
    (hpos : ∀ k ∈ dkeys F, 0 < k)
    (h9 : 9 ∉ dkeys F) (h10 : 10 ∉ dkeys F)
    (hval : ∀ p ∈ F, SOH ∉ p.2 ∧ PIPE ∉ p.2)
    (ht : SOH ∉ t ∧ PIPE ∉ t) (hnow : SOH ∉ now ∧ PIPE ∉ now) :
    (∀ k v, dlookup k F = some v →
      dlookup k (parse_message SOH (create_message SOH now t F)) = some v) ∧
    (dlookup 35 F = none →
      dlookup 35 (parse_message SOH (create_message SOH now t F)) = some t) ∧
    (dlookup 8 F = none →
      dlookup 8 (parse_message SOH (create_message SOH now t F)) = some FIX_VERSION_STR) ∧
    (dlookup 52 F = none →
      dlookup 52 (parse_message SOH (create_message SOH now t F)) = some now) ∧
    dlookup 9 (parse_message SOH (create_message SOH now t F)) =
      some (natToChars (build_body_length SOH (combined_fields now t F))) ∧
    dlookup 10 (parse_message SOH (create_message SOH now t F)) =
      some (pyFormat3 (build_checksum SOH (combined_fields now t F))) ∧
    build_body_length SOH (parse_message SOH (create_message SOH now t F)) =
      build_body_length SOH (combined_fields now t F) ∧
    build_checksum SOH (parse_message SOH (create_message SOH now t F)) =
      build_checksum SOH (combined_fields now t F) := by
  have hnodc : (dkeys (combined_fields now t F)).Nodup := combined_fields_nodup hnod now t
  have hposc : ∀ k ∈ dkeys (combined_fields now t F), 0 < k := combined_fields_keys_pos hpos
  have h9c : (9 : Int) ∉ dkeys (combined_fields now t F) := combined_fields_keys_not9 h9
  have h10c : (10 : Int) ∉ dkeys (combined_fields now t F) := combined_fields_keys_not10 h10
  have hvalS : ∀ p ∈ combined_fields now t F, SOH ∉ p.2 :=
    combined_fields_values_soh (fun p hp => (hval p hp).1) ht.1 hnow.1
  have hvalP : ∀ p ∈ combined_fields now t F, PIPE ∉ p.2 :=
    combined_fields_values_pipe (fun p hp => (hval p hp).2) ht.2 hnow.2
  have h35S : (35 : Int) ∈ dkeys (sortPairs (combined_fields now t F)) :=
    dkeys_sortPairs_mem.mpr (combined_fields_contains35 now t F)
  have h8S : (8 : Int) ∈ dkeys (sortPairs (combined_fields now t F)) :=
    dkeys_sortPairs_mem.mpr (combined_fields_contains8 now t F)
  have h9S : (9 : Int) ∉ dkeys (sortPairs (combined_fields now t F)) :=
    fun hk => h9c (dkeys_sortPairs_mem.mp hk)
  have h10S : (10 : Int) ∉ dkeys (sortPairs (combined_fields now t F)) :=
    fun hk => h10c (dkeys_sortPairs_mem.mp hk)
  have hnodS : (dkeys (sortPairs (combined_fields now t F))).Nodup := nodup_keys_sortPairs hnodc
  have hstrictS : List.Pairwise keyLt (sortPairs (combined_fields now t F)) :=
    sorted_keyLt_of_nodup (sortPairs_sorted _) hnodS
  have hfilt : (sortPairs (combined_fields now t F)).filter
      (fun p => !(p.1 == 9) && !(p.1 == 10)) = sortPairs (combined_fields now t F) :=
    filter910_eq_self h9S h10S
  cases hS : sortPairs (combined_fields now t F) with
  | nil =>
    rw [hS] at h35S
    simp [dkeys] at h35S
  | cons q0 qs =>
    cases qs with
    | nil =>
      exfalso
      rw [hS] at h35S h8S
      simp [dkeys] at h35S h8S
      omega
    | cons q1 qs2 =>
      have hSfilt : (sortPairs (combined_fields now t F)).filter
          (fun p => !(p.1 == 9) && !(p.1 == 10)) = q0 :: q1 :: qs2 := by
        rw [hfilt, hS]
      obtain ⟨hwol, hlast, hstart, hlen, hdropeq, hwl⟩ :=
        build_structure (combined_fields now t F) hSfilt (by simp) hposc hvalS
      have hmemS2 : ∀ p ∈ (q0 :: q1 :: qs2 : Dict), p ∈ combined_fields now t F := by
        intro p hp
        rw [← hS] at hp
        exact (sortPairs_perm _).mem_iff.mp hp
      have hnodS2 : (dkeys (q0 :: q1 :: qs2 : Dict)).Nodup := hS ▸ hnodS
      have hstrictS2 : List.Pairwise keyLt (q0 :: q1 :: qs2) := hS ▸ hstrictS
      have h9S2 : (9 : Int) ∉ dkeys (q0 :: q1 :: qs2 : Dict) := hS ▸ h9S
      have h10S2 : (10 : Int) ∉ dkeys (q0 :: q1 :: qs2 : Dict) := hS ▸ h10S
      have h10chars : intToChars 10 = ['1', '0'] := by decide
      have h9chars : intToChars 9 = ['9'] := by decide
      have hcreq : create_message SOH now t F =
          build_with_length SOH (combined_fields now t F) ++
            SOH :: '1' :: '0' :: '=' ::
              pyFormat3 (build_checksum SOH (combined_fields now t F)) := by
        unfold create_message
        rw [h10chars]
        simp
      have hpart9 : partStr (9, natToChars (build_body_length SOH (combined_fields now t F))) =
          '9' :: '=' :: natToChars (build_body_length SOH (combined_fields now t F)) := by
        simp [partStr, h9chars]
      have hpart10 : partStr (10, pyFormat3 (build_checksum SOH (combined_fields now t F))) =
          '1' :: '0' :: '=' :: pyFormat3 (build_checksum SOH (combined_fields now t F)) := by
        simp [partStr, h10chars]
      have hj1 : joinWith SOH ((partStr q1 :: List.map partStr qs2) ++
            [partStr (10, pyFormat3 (build_checksum SOH (combined_fields now t F)))]) =
          joinWith SOH ((partStr q1 :: List.map partStr qs2)) ++
            SOH :: partStr (10, pyFormat3 (build_checksum SOH (combined_fields now t F))) :=
        joinWith_append_singleton (by simp) _
      have hj2 : joinWith SOH (partStr (9, natToChars (build_body_length SOH (combined_fields now t F))) ::
            ((partStr q1 :: List.map partStr qs2) ++
              [partStr (10, pyFormat3 (build_checksum SOH (combined_fields now t F)))])) =
          partStr (9, natToChars (build_body_length SOH (combined_fields now t F))) ++
            SOH :: joinWith SOH ((partStr q1 :: List.map partStr qs2) ++
              [partStr (10, pyFormat3 (build_checksum SOH (combined_fields now t F)))]) :=
        joinWith_cons_ne (by simp)
      have hj3 : joinWith SOH (partStr q0 ::
            partStr (9, natToChars (build_body_length SOH (combined_fields now t F))) ::
            ((partStr q1 :: List.map partStr qs2) ++
              [partStr (10, pyFormat3 (build_checksum SOH (combined_fields now t F)))])) =
          partStr q0 ++
            SOH :: joinWith SOH (partStr (9, natToChars (build_body_length SOH (combined_fields now t F))) ::
              ((partStr q1 :: List.map partStr qs2) ++
                [partStr (10, pyFormat3 (build_checksum SOH (combined_fields now t F)))])) :=
        joinWith_cons_ne (by simp)
      have hjoin : create_message SOH now t F =
          joinWith SOH ((q0 :: (9, natToChars (build_body_length SOH (combined_fields now t F))) ::
            ((q1 :: qs2) ++ [(10, pyFormat3 (build_checksum SOH (combined_fields now t F)))])).map
              partStr) := by
        rw [hcreq, hwl]
        simp only [List.map_cons, List.map_append, List.map_nil]
        rw [hj3, hj2, hj1, hpart9, hpart10]
        simp [List.append_assoc]
      have hpairpos : ∀ p ∈ (q0 :: (9, natToChars (build_body_length SOH (combined_fields now t F))) ::
          ((q1 :: qs2) ++ [(10, pyFormat3 (build_checksum SOH (combined_fields now t F)))]) : Dict),
          0 < p.1 := by
        intro p hp
        rcases List.mem_cons.mp hp with rfl | hp1
        · exact hposc p.1 (dkeys_mem_of_mem (hmemS2 _ (List.mem_cons_self _ _)))
        · rcases List.mem_cons.mp hp1 with rfl | hp2
          · exact (by decide : (0 : Int) < 9)
          · rcases List.mem_append.mp hp2 with hp3 | hp3
            · exact hposc p.1 (dkeys_mem_of_mem (hmemS2 _ (List.mem_cons_of_mem _ hp3)))
            · rw [List.mem_singleton.mp hp3]
              exact (by decide : (0 : Int) < 10)
      have hposall : ∀ k ∈ dkeys (q0 :: (9, natToChars (build_body_length SOH (combined_fields now t F))) ::
          ((q1 :: qs2) ++ [(10, pyFormat3 (build_checksum SOH (combined_fields now t F)))]) : Dict),
          0 < k := by
        intro k hk
        rcases mem_dkeys_exists hk with ⟨p, hp, rfl⟩
        exact hpairpos p hp
      have hvalall : ∀ p ∈ (q0 :: (9, natToChars (build_body_length SOH (combined_fields now t F))) ::
          ((q1 :: qs2) ++ [(10, pyFormat3 (build_checksum SOH (combined_fields now t F)))]) : Dict),
          SOH ∉ p.2 := by
        intro p hp
        rcases List.mem_cons.mp hp with rfl | hp1
        · exact hvalS _ (hmemS2 _ (List.mem_cons_self _ _))
        · rcases List.mem_cons.mp hp1 with rfl | hp2
          · intro hm
            exact (isDig_ne (natToChars_all_dig _ _ hm)).1 rfl
          · rcases List.mem_append.mp hp2 with hp3 | hp3
            · exact hvalS _ (hmemS2 _ (List.mem_cons_of_mem _ hp3))
            · rw [List.mem_singleton.mp hp3]
              intro hm
              exact (isDig_ne (pyFormat3_all_dig _ _ hm)).1 rfl
      have hpipeall : ∀ p ∈ (q0 :: (9, natToChars (build_body_length SOH (combined_fields now t F))) ::
          ((q1 :: qs2) ++ [(10, pyFormat3 (build_checksum SOH (combined_fields now t F)))]) : Dict),
          PIPE ∉ p.2 := by
        intro p hp
        rcases List.mem_cons.mp hp with rfl | hp1
        · exact hvalP _ (hmemS2 _ (List.mem_cons_self _ _))
        · rcases List.mem_cons.mp hp1 with rfl | hp2
          · intro hm
            exact (isDig_ne (natToChars_all_dig _ _ hm)).2.1 rfl
          · rcases List.mem_append.mp hp2 with hp3 | hp3
            · exact hvalP _ (hmemS2 _ (List.mem_cons_of_mem _ hp3))
            · rw [List.mem_singleton.mp hp3]
              intro hm
              exact (isDig_ne (pyFormat3_all_dig _ _ hm)).2.1 rfl
      have hq0mem : q0.1 ∈ dkeys (q0 :: q1 :: qs2 : Dict) :=
        dkeys_mem_of_mem (List.mem_cons_self _ _)
      rcases List.nodup_cons.mp (show (q0.1 :: dkeys (q1 :: qs2 : Dict)).Nodup from by
        rw [← dkeys_cons]; exact hnodS2) with ⟨hq0nin, hnodtail⟩
      have hq0ne9 : q0.1 ≠ 9 := fun he => h9S2 (he ▸ hq0mem)
      have hq0ne10 : q0.1 ≠ 10 := fun he => h10S2 (he ▸ hq0mem)
      have h9tail : (9 : Int) ∉ dkeys (q1 :: qs2 : Dict) := fun hk => h9S2 (by
        rw [dkeys_cons]
        exact List.mem_cons_of_mem _ hk)
      have h10tail : (10 : Int) ∉ dkeys (q1 :: qs2 : Dict) := fun hk => h10S2 (by
        rw [dkeys_cons]
        exact List.mem_cons_of_mem _ hk)
      have hkeysall : dkeys (q0 :: (9, natToChars (build_body_length SOH (combined_fields now t F))) ::
          ((q1 :: qs2) ++ [(10, pyFormat3 (build_checksum SOH (combined_fields now t F)))]) : Dict) =
          q0.1 :: 9 :: (dkeys (q1 :: qs2 : Dict) ++ [10]) := by
        simp [dkeys]
      have hnodall : (dkeys (q0 :: (9, natToChars (build_body_length SOH (combined_fields now t F))) ::
          ((q1 :: qs2) ++ [(10, pyFormat3 (build_checksum SOH (combined_fields now t F)))]) : Dict)).Nodup := by
        rw [hkeysall, List.nodup_cons, List.nodup_cons]
        refine ⟨?_, ?_, ?_⟩
        · intro hm
          rcases List.mem_cons.mp hm with he | hm2
          · exact hq0ne9 he
          · rcases List.mem_append.mp hm2 with hm3 | hm3
            · exact hq0nin hm3
            · exact hq0ne10 (List.mem_singleton.mp hm3)
        · intro hm
          rcases List.mem_append.mp hm with hm2 | hm2
          · exact h9tail hm2
          · exact absurd (List.mem_singleton.mp hm2) (by decide)
        · rw [List.nodup_append]
          exact ⟨hnodtail, List.nodup_singleton _,
            fun a ha hb => h10tail ((List.mem_singleton.mp hb) ▸ ha)⟩
      have hsplit : splitOnChar SOH (create_message SOH now t F) =
          (q0 :: (9, natToChars (build_body_length SOH (combined_fields now t F))) ::
            ((q1 :: qs2) ++ [(10, pyFormat3 (build_checksum SOH (combined_fields now t F)))])).map
              partStr := by
        rw [hjoin]
        exact splitOnChar_joinWith (by simp) (map_partStr_soh_free hposall hvalall)
      have hnopipe : PIPE ∉ create_message SOH now t F := by
        rw [hjoin]
        exact not_mem_joinWith (by decide) (map_partStr_pipe_free hposall hpipeall)
      have hparse : parse_message SOH (create_message SOH now t F) =
          q0 :: (9, natToChars (build_body_length SOH (combined_fields now t F))) ::
            ((q1 :: qs2) ++ [(10, pyFormat3 (build_checksum SOH (combined_fields now t F)))]) := by
        unfold parse_message
        rw [normalizePM_soh, if_neg hnopipe, hsplit]
        have hf := foldl_parseStep_partStr
          (q0 :: (9, natToChars (build_body_length SOH (combined_fields now t F))) ::
            ((q1 :: qs2) ++ [(10, pyFormat3 (build_checksum SOH (combined_fields now t F)))]))
          [] (by simpa using hnodall) hpairpos
        simpa using hf
      have hcomall : ∀ (k : Int) (v : Str), (k, v) ∈ combined_fields now t F →
          dlookup k (q0 :: (9, natToChars (build_body_length SOH (combined_fields now t F))) ::
            ((q1 :: qs2) ++ [(10, pyFormat3 (build_checksum SOH (combined_fields now t F)))])) =
          some v := by
        intro k v h1
        have h2 : (k, v) ∈ (q0 :: q1 :: qs2 : Dict) := by
          rw [← hS]
          exact (sortPairs_perm _).mem_iff.mpr h1
        have h3 : (k, v) ∈ (q0 :: (9, natToChars (build_body_length SOH (combined_fields now t F))) ::
            ((q1 :: qs2) ++ [(10, pyFormat3 (build_checksum SOH (combined_fields now t F)))]) : Dict) := by
          rcases List.mem_cons.mp h2 with he | h2'
          · rw [he]
            exact List.mem_cons_self _ _
          · exact List.mem_cons_of_mem _ (List.mem_cons_of_mem _ (List.mem_append.mpr (Or.inl h2')))
        exact dlookup_of_mem_nodup hnodall h3
      have hlook9 : dlookup 9 (q0 :: (9, natToChars (build_body_length SOH (combined_fields now t F))) ::
          ((q1 :: qs2) ++ [(10, pyFormat3 (build_checksum SOH (combined_fields now t F)))])) =
          some (natToChars (build_body_length SOH (combined_fields now t F))) :=
        dlookup_of_mem_nodup hnodall (List.mem_cons_of_mem _ (List.mem_cons_self _ _))
      have hlook10 : dlookup 10 (q0 :: (9, natToChars (build_body_length SOH (combined_fields now t F))) ::
          ((q1 :: qs2) ++ [(10, pyFormat3 (build_checksum SOH (combined_fields now t F)))])) =
          some (pyFormat3 (build_checksum SOH (combined_fields now t F))) :=
        dlookup_of_mem_nodup hnodall (List.mem_cons_of_mem _ (List.mem_cons_of_mem _
          (List.mem_append.mpr (Or.inr (List.mem_singleton.mpr rfl)))))
      have hfiltall : (q0 :: (9, natToChars (build_body_length SOH (combined_fields now t F))) ::
          ((q1 :: qs2) ++ [(10, pyFormat3 (build_checksum SOH (combined_fields now t F)))])).filter
            (fun p => !(p.1 == 9) && !(p.1 == 10)) = q0 :: q1 :: qs2 := by
        rw [List.filter_cons_of_pos (by simp [hq0ne9, hq0ne10]),
          List.filter_cons_of_neg (by simp),
          List.filter_append, filter910_eq_self h9tail h10tail,
          List.filter_cons_of_neg (by simp), List.filter_nil, List.append_nil]
      have hpermfilt : List.Perm ((sortPairs (q0 :: (9, natToChars (build_body_length SOH (combined_fields now t F))) ::
          ((q1 :: qs2) ++ [(10, pyFormat3 (build_checksum SOH (combined_fields now t F)))]))).filter
            (fun p => !(p.1 == 9) && !(p.1 == 10))) (q0 :: q1 :: qs2) := by
        have hp2 := (sortPairs_perm (q0 :: (9, natToChars (build_body_length SOH (combined_fields now t F))) ::
          ((q1 :: qs2) ++ [(10, pyFormat3 (build_checksum SOH (combined_fields now t F)))]))).filter
            (fun p => !(p.1 == 9) && !(p.1 == 10))
        rw [hfiltall] at hp2
        exact hp2
      have hstrictfilt : List.Pairwise keyLt ((sortPairs (q0 :: (9, natToChars (build_body_length SOH (combined_fields now t F))) ::
          ((q1 :: qs2) ++ [(10, pyFormat3 (build_checksum SOH (combined_fields now t F)))]))).filter
            (fun p => !(p.1 == 9) && !(p.1 == 10))) :=
        sorted_keyLt_of_nodup
          (List.Pairwise.sublist (List.filter_sublist _) (sortPairs_sorted _))
          (List.Nodup.sublist (List.Sublist.map _ (List.filter_sublist _))
            (nodup_keys_sortPairs hnodall))
      have hfilteq : (sortPairs (q0 :: (9, natToChars (build_body_length SOH (combined_fields now t F))) ::
          ((q1 :: qs2) ++ [(10, pyFormat3 (build_checksum SOH (combined_fields now t F)))]))).filter
            (fun p => !(p.1 == 9) && !(p.1 == 10)) = q0 :: q1 :: qs2 :=
        List.eq_of_perm_of_sorted hpermfilt hstrictfilt hstrictS2
      have hdp : dictParts (q0 :: (9, natToChars (build_body_length SOH (combined_fields now t F))) ::
          ((q1 :: qs2) ++ [(10, pyFormat3 (build_checksum SOH (combined_fields now t F)))])) =
          dictParts (combined_fields now t F) := by
        unfold dictParts
        rw [hfilteq, hSfilt]
      obtain ⟨hb1, hb2, hb3, hb4, hb5⟩ := build_congr hdp
      rw [hparse]
      refine ⟨?_, ?_, ?_, ?_, hlook9, hlook10, hb3, hb5⟩
      · intro k v hkv
        exact hcomall k v (mem_of_dlookup (combined_fields_lookup_mono hkv))
      · intro h35n
        refine hcomall 35 t (mem_of_dlookup ?_)
        rw [combined_fields_lookup35, h35n]
        rfl
      · intro h8n
        refine hcomall 8 FIX_VERSION_STR (mem_of_dlookup ?_)
        rw [combined_fields_lookup8, h8n]
        rfl
      · intro h52n
        refine hcomall 52 now (mem_of_dlookup ?_)
        rw [combined_fields_lookup52, h52n]
        rfl

/-- Witness for C1 amended at a concrete input: the parsed tag 9 carries
the recomputed body length. -/
theorem c1_amended_roundtrip_witness :
    dlookup 9 (parse_message SOH (create_message SOH ['T'] ['0'] [(49, ['X'])])) =
      some (natToChars (build_body_length SOH (combined_fields ['T'] ['0'] [(49, ['X'])]))) := by
  obtain ⟨-, -, -, -, h9v, -, -, -⟩ := c1_amended_roundtrip ['T'] ['0'] [(49, ['X'])]
    (by decide) (by decide) (by decide) (by decide) (by decide) (by decide) (by decide)
  exact h9v

/-- Witness for C7 amended at a concrete input: a message without tag 35
gets no mapping back. -/
theorem c7_amended_partial_mapping_witness :
    (validate_message SOH ['4', '9', '=', 'X']).dict? = none :=
  ((c7_amended_partial_mapping SOH ['4', '9', '=', 'X']).1).mpr (Or.inr (by decide))
